import Mathlib

/-!
# Verification of the ACC clustering-and-placement core

Shallow embedding of the ACC ("Area Cladogram Chart") core:

* `acc_core_new.py` — coordinate conversions, greedy pair/cluster selection,
  recursive angle/radius placement, and the iterative step-log builder
  (`build_acc_iterative`);
* `acc_core_acc2.py` — the ACC2 transform (dendrogram levels, merge points,
  connection lines, `build_acc2`).

Conventions of the embedding:

* Python floats are modelled by exact numbers: all similarity, radius, and
  angle arithmetic of the algorithms is carried out in `ℚ`; the final
  polar→cartesian conversion (`pol2cart`, built on `sin`/`cos`) is modelled
  over `ℝ`.
* Python dicts are association lists in insertion order
  (`List (String × ·)`); Python sets of area names are kept as
  insertion-ordered duplicate-free lists (the source iterates sets in an
  unspecified hash order; this embedding fixes the insertion order as the
  canonical one).
* Python truthiness in conditions such as `if sim and sim > best` is
  modelled explicitly: `None` and `0` are falsy.
* The source's `while` loops are modelled by structural recursion on an
  explicit iteration budget (`fuel`); call sites pass `buildMeasure + 1`,
  one more than the loop's variant (unplaced areas + active clusters).
  A run that exhausts the budget returns the steps recorded so far, the
  same value the source's loop produces when it stops making progress.
-/

/- The Batteries `Rat` arithmetic is `@[irreducible]`, which blocks `decide`
on concrete rational computations; re-allow unfolding (the kernel ignores
reducibility attributes, so this changes nothing about what is provable). -/
attribute [local semireducible] Rat.mul Rat.inv Rat.add Rat.sub

namespace ACC

open Real

/-! ## Coordinate conversions (`acc_core_new.py`, `pol2cart` / `cart2pol`) -/

/-- `math.atan2 y x`, modelled as the argument of the complex number
`x + y·i` (both return the angle of the point `(x, y)` in `(-π, π]`). -/
noncomputable def atan2 (y x : ℝ) : ℝ :=
  Complex.arg (Complex.ofReal x + Complex.ofReal y * Complex.I)

/-- `pol2cart(r, angle_deg)` from `acc_core_new.py`:
`rad = radians(angle_deg + 90); return (r*cos(rad), r*sin(rad))`. -/
noncomputable def pol2cart (r angleDeg : ℝ) : ℝ × ℝ :=
  (r * Real.cos ((angleDeg + 90) * π / 180),
   r * Real.sin ((angleDeg + 90) * π / 180))

/-- `cart2pol(x, y)` from `acc_core_new.py`:
`r = sqrt(x²+y²); angle_deg = degrees(atan2(y, x)) - 90`. -/
noncomputable def cart2pol (x y : ℝ) : ℝ × ℝ :=
  (Real.sqrt (x ^ 2 + y ^ 2), atan2 y x * 180 / π - 90)

/-- Modelled from the spec: the *compass* polar convention the spec claims
for `pol2cart` — "0° = north, positive = clockwise,
`x = r·sin(θ), y = r·cos(θ)`".  Used only to compare the spec's stated
convention with the code's actual one. -/
noncomputable def compassPol2cart (r angleDeg : ℝ) : ℝ × ℝ :=
  (r * Real.sin (angleDeg * π / 180), r * Real.cos (angleDeg * π / 180))

/-- Distance from the origin, as computed by the repository's own
verification scripts (`sqrt(x**2 + y**2)`). -/
noncomputable def originDist (p : ℝ × ℝ) : ℝ :=
  Real.sqrt (p.1 ^ 2 + p.2 ^ 2)

/-- `compass_angle(x, y)` from `acc_core_acc2.py`:
`degrees(atan2(x, y))` — 0° = north, positive = clockwise (east). -/
noncomputable def compass_angle (x y : ℝ) : ℝ :=
  atan2 x y * 180 / π

/-! ## Similarity matrices (`acc_core_new.py`) -/

/-- A similarity matrix: a Python dict-of-dicts `{area: {area: float}}`,
modelled as an association list in insertion order with exact `ℚ` values. -/
abbrev Matrix := List (String × List (String × ℚ))

/-- Python dict lookup `d[k]` (as `Option`, `none` for a missing key). -/
def dictFind {α : Type} (d : List (String × α)) (k : String) : Option α :=
  (d.find? (fun kv => kv.1 = k)).map Prod.snd

/-- `get_similarity(matrix, area1, area2)`: try `matrix[area1][area2]`,
then `matrix[area2][area1]`, else `None`. -/
def get_similarity (matrix : Matrix) (area1 area2 : String) : Option ℚ :=
  match (dictFind matrix area1).bind (fun row => dictFind row area2) with
  | some v => some v
  | none => (dictFind matrix area2).bind (fun row => dictFind row area1)

/-- `itertools.combinations(l, 2)` in iteration order. -/
def listPairs {α : Type} : List α → List (α × α)
  | [] => []
  | x :: xs => xs.map (fun y => (x, y)) ++ listPairs xs

/-- One update of `find_highest_similarity_pair`'s best-so-far state
(`best_sim` starts at `-1.0`, updated on `sim is not None and sim > best_sim`). -/
def bestPairStep (matrix : Matrix) (acc : ℚ × Option (String × String))
    (p : String × String) : ℚ × Option (String × String) :=
  match get_similarity matrix p.1 p.2 with
  | some sim => if sim > acc.1 then (sim, some (p.1, p.2)) else acc
  | none => acc

/-- `find_highest_similarity_pair(local_matrix)`: scan all key pairs,
keep the pair with the strictly highest defined similarity. -/
def find_highest_similarity_pair (matrix : Matrix) :
    Option (String × String × ℚ) :=
  let areas := matrix.map Prod.fst
  let res := (listPairs areas).foldl (bestPairStep matrix) (-1, none)
  match res.2 with
  | some (a1, a2) => some (a1, a2, res.1)
  | none => none

/-- `average_pairwise_similarity(members, matrix)`: `1.0` for a singleton,
else the mean over the defined pairwise similarities (undefined pairs
skipped), `0.0` when no pair is defined. -/
def average_pairwise_similarity (members : List String) (matrix : Matrix) : ℚ :=
  if members.length = 1 then 1
  else
    let sims := (listPairs members).filterMap
      (fun p => get_similarity matrix p.1 p.2)
    if 0 < sims.length then sims.sum / (sims.length : ℚ) else 0

/-- First-occurrence deduplication (`seen` accumulates emitted names):
the canonical representation of a Python set built by inserting the
elements of `l` in order. -/
def pyDedupAux : List String → List String → List String
  | _, [] => []
  | seen, x :: xs =>
      if x ∈ seen then pyDedupAux seen xs
      else x :: pyDedupAux (x :: seen) xs

/-- Canonical form of a Python set of area names: an insertion-ordered,
duplicate-free list.  (The source iterates sets in an unspecified hash
order; this embedding fixes the insertion order as the canonical one.) -/
def pyDedup (l : List String) : List String :=
  pyDedupAux [] l

/-- Canonical form of a Python set of area names. -/
def mkMemberSet (l : List String) : List String :=
  pyDedup l

/-! ## Structure trees and recursive positioning

The source encodes the binary hierarchy as nested dicts
`{'children': [left, right], 'angle': float, 'radius': float}` with strings
as leaves; the embedding uses the equivalent tagged sum.  (The legacy
nested-list fallback branches of `position_structure_recursively` are never
reached by the builder, whose structures are always strings or two-child
dicts, and are not modelled.) -/

inductive Structure where
  | leaf (name : String)
  | node (left right : Structure) (angle radius : ℚ)
deriving DecidableEq, Repr

/-- Radius used for a child when positioning: a string child uses the
parent node's radius, a dict child its own stored radius. -/
def childRadius (child : Structure) (nodeRadius : ℚ) : ℚ :=
  match child with
  | .leaf _ => nodeRadius
  | .node _ _ _ r => r

/-- `position_structure_recursively(structure, parent_direction_atan2,
radius_scale)` with the final `pol2cart` call left in polar form: each leaf
is recorded as `(name, radius_scale, angle_acc)` where
`angle_acc = -parent_direction` (the "convert to ACC convention" negation
in the source). -/
def positionPolar : Structure → ℚ → ℚ → List (String × ℚ × ℚ)
  | .leaf name, parentDir, radiusScale => [(name, radiusScale, -parentDir)]
  | .node l r angle radius, parentDir, _ =>
      let half := angle / 2
      positionPolar l (parentDir - half) (childRadius l radius) ++
        positionPolar r (parentDir + half) (childRadius r radius)

/-- `position_structure_recursively` itself, producing cartesian points. -/
noncomputable def position_structure_recursively :
    Structure → ℝ → ℝ → List (String × ℝ × ℝ)
  | .leaf name, parentDir, radiusScale => [(name, pol2cart radiusScale (-parentDir))]
  | .node l r angle radius, parentDir, _ =>
      let half := (angle : ℝ) / 2
      position_structure_recursively l (parentDir - half) ((childRadius l radius : ℚ) : ℝ) ++
        position_structure_recursively r (parentDir + half) ((childRadius r radius : ℚ) : ℝ)

/-- The `(name, radius)` pairs determined by a structure tree: the data
`position_structure_recursively` assigns independently of any direction. -/
def radiiList : Structure → ℚ → List (String × ℚ)
  | .leaf name, radiusScale => [(name, radiusScale)]
  | .node l r _ radius, _ =>
      radiiList l (childRadius l radius) ++ radiiList r (childRadius r radius)

/-- Leaves of a structure tree, left to right. -/
def structLeaves : Structure → List String
  | .leaf name => [name]
  | .node l r _ _ => structLeaves l ++ structLeaves r

/-! ## Clusters and the three placement operations -/

/-- The cluster dict built by the placer.  `pointsPolar` keeps the `points`
dict in polar form (see `clusterPoints`); the constant `center` `(0,0)` and
the unused `midline_angle` field are omitted. -/
structure Cluster where
  members : List String
  radius : ℚ
  diameter : ℚ
  angle : ℚ
  local_sim : ℚ
  global_sim : ℚ
  struct : Structure
  pointsPolar : List (String × ℚ × ℚ)
deriving DecidableEq, Repr

/-- The cartesian `points` dict of a cluster. -/
noncomputable def clusterPoints (c : Cluster) : List (String × ℝ × ℝ) :=
  c.pointsPolar.map (fun x => (x.1, pol2cart (x.2.1 : ℝ) (x.2.2 : ℝ)))

/-- `place_first_two_areas(area1, area2, local_sim, global_sim, unit)`. -/
def place_first_two_areas (area1 area2 : String) (local_sim global_sim : ℚ)
    (unit : ℚ) : Cluster :=
  let diameter := if global_sim > 0 then unit / global_sim else unit * 100
  let radius := diameter / 2
  let angle := 180 * (1 - local_sim)
  { members := mkMemberSet [area1, area2]
    radius := radius
    diameter := radius * 2  -- the source dict stores "diameter": radius * 2.0
    angle := angle
    local_sim := local_sim
    global_sim := global_sim
    struct := .node (.leaf area1) (.leaf area2) angle radius
    -- "points": {area1: pol2cart(radius, -angle/2), area2: pol2cart(radius, angle/2)}
    pointsPolar := [(area1, radius, -(angle / 2)), (area2, radius, angle / 2)] }

/-- `add_area_to_cluster(cluster, new_area, local_matrix, global_matrix,
unit)`.  (The best-member probe at the top of the source function is dead
code — its result is never used — and is not modelled.) -/
def add_area_to_cluster (cluster : Cluster) (new_area : String)
    (local_matrix global_matrix : Matrix) (unit : ℚ) : Cluster :=
  let sims_local := cluster.members.filterMap
    (fun m => get_similarity local_matrix m new_area)
  let sims_global := cluster.members.filterMap
    (fun m => get_similarity global_matrix m new_area)
  let new_local_sim :=
    if 0 < sims_local.length then sims_local.sum / (sims_local.length : ℚ) else 1/2
  let new_global_sim :=
    if 0 < sims_global.length then sims_global.sum / (sims_global.length : ℚ) else 1/2
  let new_diameter := if new_global_sim > 0 then unit / new_global_sim else unit * 100
  let new_angle := 180 * (1 - new_local_sim)
  let new_radius := new_diameter / 2
  let new_structure : Structure := .node cluster.struct (.leaf new_area) new_angle new_radius
  { members := mkMemberSet (cluster.members ++ [new_area])
    radius := new_radius
    diameter := new_diameter
    angle := new_angle
    local_sim := new_local_sim
    global_sim := new_global_sim
    struct := new_structure
    pointsPolar := positionPolar new_structure 0 new_radius }

/-- `merge_two_clusters(c1, c2, local_matrix, global_matrix, unit)`.
(The best-pair probe and `alignment_angle` in the source are computed but
never used and are not modelled.) -/
def merge_two_clusters (c1 c2 : Cluster)
    (local_matrix global_matrix : Matrix) (unit : ℚ) : Cluster :=
  let pairs := c1.members.flatMap (fun m1 => c2.members.map (fun m2 => (m1, m2)))
  let sims_local := pairs.filterMap (fun p => get_similarity local_matrix p.1 p.2)
  let sims_global := pairs.filterMap (fun p => get_similarity global_matrix p.1 p.2)
  let merged_local_sim :=
    if 0 < sims_local.length then sims_local.sum / (sims_local.length : ℚ) else 1/2
  let merged_global_sim :=
    if 0 < sims_global.length then sims_global.sum / (sims_global.length : ℚ) else 1/2
  let new_diameter := if merged_global_sim > 0 then unit / merged_global_sim else unit * 100
  let new_angle := 180 * (1 - merged_local_sim)
  let new_radius := new_diameter / 2
  let new_structure : Structure := .node c1.struct c2.struct new_angle new_radius
  { members := mkMemberSet (c1.members ++ c2.members)
    radius := new_radius
    diameter := new_diameter
    angle := new_angle
    local_sim := merged_local_sim
    global_sim := merged_global_sim
    struct := new_structure
    pointsPolar := positionPolar new_structure 0 new_radius }

/-- `place_independent_pair` — an alias of `place_first_two_areas` in the
source. -/
def place_independent_pair (area1 area2 : String) (local_sim global_sim : ℚ)
    (unit : ℚ) : Cluster :=
  place_first_two_areas area1 area2 local_sim global_sim unit

/-! ## PairFinder (`find_highest_similarity_with_clusters`) -/

/-- A candidate action selected by `find_highest_similarity_with_clusters`;
the cluster cases carry the selected cluster value(s). -/
inductive Candidate where
  | new_pair (area1 area2 : String) (local_sim global_sim : ℚ)
  | add_to_cluster (cluster : Cluster) (area : String) (local_sim global_sim : ℚ)
  | merge_clusters (c1 c2 : Cluster) (local_sim global_sim : ℚ)
deriving DecidableEq, Repr

/-- Python `lookup or fallback` on a similarity: `None` and `0.0` fall back. -/
def simOrElse (o : Option ℚ) (d : ℚ) : ℚ :=
  match o with
  | some v => if v = 0 then d else v
  | none => d

/-- Inner probe `max_sim` over the members of one cluster
(`max_sim` starts at `-1.0`; `if sim and sim > max_sim`). -/
def maxMemberSim (lm : Matrix) (members : List String) (area : String) : ℚ :=
  members.foldl (fun acc m =>
    match get_similarity lm m area with
    | some s => if s ≠ 0 ∧ s > acc then s else acc
    | none => acc) (-1)

/-- Cross-cluster probe: max defined truthy similarity over member pairs. -/
def maxCrossSim (lm : Matrix) (ms1 ms2 : List String) : ℚ :=
  ms1.foldl (fun acc m1 =>
    ms2.foldl (fun acc2 m2 =>
      match get_similarity lm m1 m2 with
      | some s => if s ≠ 0 ∧ s > acc2 then s else acc2
      | none => acc2) acc) (-1)

/-- Phase 1 update: one pair of unplaced areas
(`if local_sim and local_sim > best_sim`). -/
def candPairStep (lm gm : Matrix) (acc : ℚ × Option Candidate) (p : String × String) :
    ℚ × Option Candidate :=
  match get_similarity lm p.1 p.2 with
  | some ls =>
      if ls ≠ 0 ∧ ls > acc.1 then
        (ls, some (.new_pair p.1 p.2 ls (simOrElse (get_similarity gm p.1 p.2) ls)))
      else acc
  | none => acc

/-- Phase 2 update: one cluster × one unplaced area.  (`list(members)[0]`
for the global lookup is the first member in canonical order; the source
would fault on an empty member set, which never occurs.) -/
def candAddStep (lm gm : Matrix) (acc : ℚ × Option Candidate)
    (ca : Cluster × String) : ℚ × Option Candidate :=
  let maxSim := maxMemberSim lm ca.1.members ca.2
  if maxSim > acc.1 then
    (maxSim, some (.add_to_cluster ca.1 ca.2 maxSim
      (simOrElse (get_similarity gm (ca.1.members.headD "") ca.2) maxSim)))
  else acc

/-- Phase 3 update: one pair of clusters. -/
def candMergeStep (lm gm : Matrix) (acc : ℚ × Option Candidate)
    (cc : Cluster × Cluster) : ℚ × Option Candidate :=
  let maxSim := maxCrossSim lm cc.1.members cc.2.members
  if maxSim > acc.1 then
    (maxSim, some (.merge_clusters cc.1 cc.2 maxSim
      (simOrElse (get_similarity gm (cc.1.members.headD "") (cc.2.members.headD "")) maxSim)))
  else acc

/-- The unplaced areas: `set(local_matrix.keys()) - placed_areas`. -/
def unplacedAreas (lm : Matrix) (placed : List String) : List String :=
  (pyDedup (lm.map Prod.fst)).filter (fun a => a ∉ placed)

/-- `find_highest_similarity_with_clusters(local, global, placed, clusters)`:
one pass over (1) pairs of unplaced areas, (2) cluster–area combinations,
(3) pairs of clusters, returning the highest-scoring candidate (or `None`). -/
def find_highest_similarity_with_clusters (lm gm : Matrix) (placed : List String)
    (clusters : List Cluster) : Option Candidate :=
  let unplaced := unplacedAreas lm placed
  let acc1 := (listPairs unplaced).foldl (candPairStep lm gm) (-1, none)
  let acc2 := (clusters.flatMap (fun c => unplaced.map (fun a => (c, a)))).foldl
    (candAddStep lm gm) acc1
  let acc3 := (listPairs clusters).foldl (candMergeStep lm gm) acc2
  acc3.2

/-! ## The iterative builder (`build_acc_iterative`) -/

/-- One recorded `Step` of the builder.  The free-text `description` field
is omitted. -/
structure Step where
  step : ℕ
  action : String
  clusters : List Cluster
  highlighted_members : List String
  placed_areas : List String
deriving DecidableEq, Repr

/-- The loop state of `build_acc_iterative`. -/
structure BuildState where
  placed_areas : List String
  active_clusters : List Cluster
  steps : List Step
  step_num : ℕ
deriving DecidableEq, Repr

/-- The loop variant: unplaced areas + active clusters.  It strictly
decreases at every iteration of the source's `while` loop. -/
def buildMeasure (lm : Matrix) (st : BuildState) : ℕ :=
  (unplacedAreas lm st.placed_areas).length + st.active_clusters.length

/-- The `while` loop of `build_acc_iterative`, by structural recursion on
an iteration budget (call sites pass `buildMeasure + 1`, one more than the
loop's variant, which decreases at each productive iteration; a run that
exhausts the budget returns the steps recorded so far, as the source's
loop does when it stops making progress).  Error paths that `break` in the
source (no candidate; a selected cluster not found among the active ones;
both merge indices equal, where the source's double `del` would corrupt
the list) return the steps recorded so far. -/
def buildLoop (lm gm : Matrix) (unit : ℚ) : ℕ → BuildState → List Step
  | 0, st => st.steps
  | fuel + 1, st =>
      if st.placed_areas.length < (pyDedup (lm.map Prod.fst)).length ∨
          1 < st.active_clusters.length then
        match find_highest_similarity_with_clusters lm gm st.placed_areas
            st.active_clusters with
        | none => st.steps
        | some (.new_pair a1 a2 ls gs) =>
            let cluster := place_independent_pair a1 a2 ls gs unit
            let active := st.active_clusters ++ [cluster]
            let placed := pyDedup (st.placed_areas ++ [a1, a2])
            buildLoop lm gm unit fuel
              { placed_areas := placed
                active_clusters := active
                steps := st.steps ++
                  [⟨st.step_num, "new_pair", active, pyDedup [a1, a2], placed⟩]
                step_num := st.step_num + 1 }
        | some (.add_to_cluster c a _ls _gs) =>
            match st.active_clusters.findIdx? (fun x => x.members = c.members) with
            | none => st.steps
            | some idx =>
                let updated := add_area_to_cluster c a lm gm unit
                let active := st.active_clusters.set idx updated
                let placed := pyDedup (st.placed_areas ++ [a])
                buildLoop lm gm unit fuel
                  { placed_areas := placed
                    active_clusters := active
                    steps := st.steps ++
                      [⟨st.step_num, "add_area", active, [a], placed⟩]
                    step_num := st.step_num + 1 }
        | some (.merge_clusters c1 c2 _ls _gs) =>
            match st.active_clusters.findIdx? (fun x => x.members = c1.members),
                st.active_clusters.findIdx? (fun x => x.members = c2.members) with
            | some idx1, some idx2 =>
                if idx1 = idx2 then st.steps
                else
                  let merged := merge_two_clusters c1 c2 lm gm unit
                  let pruned :=
                    if idx2 < idx1 then
                      (st.active_clusters.eraseIdx idx1).eraseIdx idx2
                    else (st.active_clusters.eraseIdx idx2).eraseIdx idx1
                  let active := pruned ++ [merged]
                  buildLoop lm gm unit fuel
                    { placed_areas := st.placed_areas
                      active_clusters := active
                      steps := st.steps ++
                        [⟨st.step_num, "merge_clusters", active, [], st.placed_areas⟩]
                      step_num := st.step_num + 1 }
            | _, _ => st.steps
      else st.steps

/-- `build_acc_iterative(local_matrix, global_matrix, unit, method)`: place
the initial highest-similarity pair (returning `[]` if no pair is
scorable), then iterate.  The `method` parameter of the source is unused on
every executed path of this function and is omitted. -/
def build_acc_iterative (lm gm : Matrix) (unit : ℚ) : List Step :=
  match find_highest_similarity_pair lm with
  | none => []
  | some (a1, a2, ls) =>
      -- `if global_sim is None: global_sim = local_sim` (an `is None` test,
      -- not truthiness: a defined 0.0 is kept here)
      let gs := (get_similarity gm a1 a2).getD ls
      let cluster := place_first_two_areas a1 a2 ls gs unit
      let placed := pyDedup [a1, a2]
      let st : BuildState :=
        { placed_areas := placed
          active_clusters := [cluster]
          steps := [⟨0, "initial", [cluster], pyDedup [a1, a2], placed⟩]
          step_num := 1 }
      buildLoop lm gm unit (buildMeasure lm st + 1) st

/-- The `(member, polar radius)` pairs recorded in one step's snapshot. -/
def stepRadiusPairs (s : Step) : List (String × ℚ) :=
  s.clusters.flatMap (fun c => c.pointsPolar.map (fun x => (x.1, x.2.1)))

/-- The cartesian points of every member of every active cluster of a step. -/
noncomputable def stepPoints (s : Step) : List (String × ℝ × ℝ) :=
  s.clusters.flatMap (fun c => clusterPoints c)

/-- All `(member, polar radius)` pairs of a list of clusters. -/
def pairsOf (clusters : List Cluster) : List (String × ℚ) :=
  clusters.flatMap (fun c => c.pointsPolar.map (fun x => (x.1, x.2.1)))

/-- Coherence of one cluster as produced by the placer: its points carry
exactly the per-node radii stored in its structure tree, its members are
its structure's leaves, and its structure is an internal node. -/
def ClusterInv (c : Cluster) : Prop :=
  c.pointsPolar.map (fun x => (x.1, x.2.1)) = radiiList c.struct c.radius ∧
  List.Perm (structLeaves c.struct) c.members ∧
  (∃ l r a rad, c.struct = Structure.node l r a rad)

/-- The builder's loop invariant: every active cluster is coherent, no
member appears in two clusters, every member is placed, and the placed set
is duplicate-free. -/
def ActiveInv (active : List Cluster) (placed : List String) : Prop :=
  (∀ c ∈ active, ClusterInv c) ∧
  (active.flatMap (fun c => structLeaves c.struct)).Nodup ∧
  (∀ c ∈ active, ∀ m ∈ structLeaves c.struct, m ∈ placed) ∧
  placed.Nodup

/-- Every `(member, radius)` pair of each step persists into the next
step of the log. -/
def RadiusChain : List Step → Prop
  | [] => True
  | [_] => True
  | s1 :: s2 :: rest =>
      (∀ p ∈ stepRadiusPairs s1, p ∈ stepRadiusPairs s2) ∧ RadiusChain (s2 :: rest)

/-- The member names of one step's snapshot are duplicate-free. -/
def StepNamesNodup (s : Step) : Prop :=
  ((stepRadiusPairs s).map Prod.fst).Nodup

/-! ## ACC2: dendrogram analysis (`acc_core_acc2.py`) -/

/-- The `get_similarity` defined inside `analyze_dendrogram_levels`:
diagonal `1.0`, missing entries default `0.0`. -/
def acc2_get_similarity (matrix : Matrix) (area1 area2 : String) : ℚ :=
  if area1 = area2 then 1
  else
    match (dictFind matrix area1).bind (fun row => dictFind row area2) with
    | some v => v
    | none =>
        match (dictFind matrix area2).bind (fun row => dictFind row area1) with
        | some v => v
        | none => 0

/-- `linkage_similarity`: the mean similarity over all member pairs
(`np.mean(sims) if sims else 0.0`). -/
def linkage_similarity (matrix : Matrix) (ms1 ms2 : List String) : ℚ :=
  let sims := ms1.flatMap (fun m1 => ms2.map (fun m2 => acc2_get_similarity matrix m1 m2))
  if 0 < sims.length then sims.sum / (sims.length : ℚ) else 0

/-- `find_best_merge`: the cluster pair with the strictly highest linkage
similarity (`best_sim` starts at `-1`). -/
def find_best_merge (clusters : List (String × List String)) (matrix : Matrix) :
    Option (String × String × ℚ) :=
  ((listPairs clusters).foldl (fun acc p =>
    let sim := linkage_similarity matrix p.1.2 p.2.2
    if sim > acc.1 then (sim, some (p.1.1, p.2.1, sim)) else acc)
    ((-1 : ℚ), none)).2

/-- One ACC2 merge level.  (`members` is `sorted(...)` in the source, for
display; this embedding keeps the canonical insertion order — the set
content is identical.) -/
structure MergeLevel where
  level : ℕ
  cluster1 : String
  cluster2 : String
  members : List String
  local_sim : ℚ
  global_sim : ℚ
  diameter : ℚ
  radius : ℚ
deriving DecidableEq, Repr

/-- The clustering loop of `analyze_dendrogram_levels` (`while len > 1`),
on an iteration budget ≥ the initial cluster count.  (With two or more
clusters `find_best_merge` always returns a pair, since every linkage
similarity is `≥ 0 > -1`; the `none` arm is unreachable — the source would
fault unpacking `None` there.) -/
def analyzeLoop (lm gm : Matrix) :
    ℕ → List (String × List String) → List MergeLevel → ℕ → List MergeLevel
  | 0, _, levels, _ => levels
  | fuel + 1, clusters, levels, level =>
      if 1 < clusters.length then
        match find_best_merge clusters lm with
        | none => levels
        | some (c1id, c2id, localSim) =>
            let c1members := (dictFind clusters c1id).getD []
            let c2members := (dictFind clusters c2id).getD []
            let globalSim := linkage_similarity gm c1members c2members
            let mergedMembers := mkMemberSet (c1members ++ c2members)
            let diameter := 1 + (1 - globalSim)
            let radius := diameter / 2
            let levelInfo : MergeLevel :=
              ⟨level, c1id, c2id, mergedMembers, localSim, globalSim, diameter, radius⟩
            let mergedId := "[" ++ c1id ++ ", " ++ c2id ++ "]"
            let clusters' :=
              (clusters.filter (fun kv => kv.1 != c1id && kv.1 != c2id)) ++
                [(mergedId, mergedMembers)]
            analyzeLoop lm gm fuel clusters' (levels ++ [levelInfo]) (level + 1)
      else levels

/-- `analyze_dendrogram_levels(local_matrix, global_matrix)`. -/
def analyze_dendrogram_levels (lm gm : Matrix) : List MergeLevel :=
  let initial := (pyDedup (lm.map Prod.fst)).map (fun a => (a, [a]))
  analyzeLoop lm gm initial.length initial [] 1

/-! ## ACC2: circular angle arithmetic

`calculate_merge_points`, `get_node_angle` and
`generate_connection_lines` all normalize angle differences with the same
pair of loops `while d > 180: d -= 360` / `while d < -180: d += 360`. -/

/-- `while x > 180: x -= 360`. -/
noncomputable def wrapDown (x : ℝ) : ℝ :=
  if h : 180 < x then wrapDown (x - 360) else x
termination_by (⌈x⌉ - 180).toNat
decreasing_by
  have h1 : (180 : ℤ) < ⌈x⌉ := by
    rw [Int.lt_ceil]
    exact_mod_cast h
  have h2 : ⌈x - 360⌉ = ⌈x⌉ - 360 := by
    have := Int.ceil_sub_int x (360 : ℤ)
    rw [← this]
    norm_num
  rw [h2]
  omega

/-- `while x < -180: x += 360`. -/
noncomputable def wrapUp (x : ℝ) : ℝ :=
  if h : x < -180 then wrapUp (x + 360) else x
termination_by (-⌊x⌋ - 180).toNat
decreasing_by
  have h1 : ⌊x⌋ < -180 := by
    rw [Int.floor_lt]
    exact_mod_cast h
  have h2 : ⌊x + 360⌋ = ⌊x⌋ + 360 := by
    have := Int.floor_add_int x (360 : ℤ)
    rw [← this]
    norm_num
  rw [h2]
  omega

/-- The full normalization into `[-180, 180]` used by the ACC2 angle math. -/
noncomputable def wrap180 (x : ℝ) : ℝ :=
  wrapUp (wrapDown x)

/-- The merge-point angle of two children at angles `a1`, `a2`:
`diff` normalized to `[-180, 180]`, midpoint `a1 + diff/2`, result
normalized to `[-180, 180]`. -/
noncomputable def mergeAngle (a1 a2 : ℝ) : ℝ :=
  wrap180 (a1 + wrap180 (a2 - a1) / 2)

/-- Circular distance between two angles in degrees (length of the shorter
arc). -/
noncomputable def circDist (x y : ℝ) : ℝ :=
  |wrap180 (x - y)|

/-! ## ACC2: positions, merge points, connection lines, `build_acc2` -/

/-- One entry of the ACC2 `positions` dict:
`{"x": …, "y": …, "radius": 0.5, "angle": …}`. -/
structure AreaPosition where
  x : ℝ
  y : ℝ
  radius : ℚ
  angle : ℝ

/-- One entry of the ACC2 `merge_points` dict. -/
structure MergePoint where
  radius : ℚ
  angle : ℝ
  children : String × String
  level : ℕ

/-- `calculate_final_positions(local, global, unit)`: run the ACC1 builder
and record each area of the final cluster at `radius 0.5` with its compass
angle.  (The source indexes `clusters[0]`; the empty-cluster arm is
unreachable, every snapshot holds at least one cluster.) -/
noncomputable def calculate_final_positions (lm gm : Matrix) (unit : ℚ) :
    List (String × AreaPosition) :=
  match (build_acc_iterative lm gm unit).getLast? with
  | none => []
  | some final_step =>
      match final_step.clusters.head? with
      | none => []
      | some final_cluster =>
          (clusterPoints final_cluster).map (fun np =>
            (np.1, ⟨np.2.1, np.2.2, 1/2, compass_angle np.2.1 np.2.2⟩))

/-- `get_child_angle` inside `calculate_merge_points`: an area's final
angle, else a previously computed merge point's angle, else an error. -/
noncomputable def getChildAngle (final_positions : List (String × AreaPosition))
    (merge_points : List (String × MergePoint)) (child : String) : Option ℝ :=
  match dictFind final_positions child with
  | some p => some p.angle
  | none => (dictFind merge_points child).map (fun mp => mp.angle)

/-- `calculate_merge_points(levels, final_positions)`: derive each level's
merge point; `none` models the `ValueError` raised when a child id resolves
to neither an area nor a known merge point. -/
noncomputable def calculate_merge_points (levels : List MergeLevel)
    (final_positions : List (String × AreaPosition)) :
    Option (List (String × MergePoint)) :=
  levels.foldl (fun acc lvl =>
    match acc with
    | none => none
    | some mps =>
        match getChildAngle final_positions mps lvl.cluster1,
            getChildAngle final_positions mps lvl.cluster2 with
        | some a1, some a2 =>
            some (mps ++ [("[" ++ lvl.cluster1 ++ ", " ++ lvl.cluster2 ++ "]",
              ⟨lvl.radius, mergeAngle a1 a2, (lvl.cluster1, lvl.cluster2),
                lvl.level⟩)])
        | _, _ => none) (some [])

/-- A `ConnectionLine`: a radial segment (as `(radius, angle)` endpoints)
or an arc at a fixed radius. -/
inductive ConnectionLine where
  | radial (fromPoint : ℚ × ℝ) (toPoint : ℚ × ℝ)
  | arc (radius : ℚ) (angle_start angle_end : ℝ)

/-- `get_child_info` inside `generate_connection_lines`. -/
noncomputable def get_child_info (fp : List (String × AreaPosition))
    (mps : List (String × MergePoint)) (child : String) : Option (ℚ × ℝ) :=
  match dictFind fp child with
  | some p => some (p.radius, p.angle)
  | none => (dictFind mps child).map (fun mp => (mp.radius, mp.angle))

open Classical in
/-- `generate_connection_lines(levels, final_positions, merge_points)`:
two radial segments and the shorter arc per level.  (A missing child raises
`ValueError` in the source; that arm is unreachable in `build_acc2` and
contributes no lines here.) -/
noncomputable def generate_connection_lines (levels : List MergeLevel)
    (fp : List (String × AreaPosition)) (mps : List (String × MergePoint)) :
    List ConnectionLine :=
  levels.flatMap (fun lvl =>
    match get_child_info fp mps lvl.cluster1, get_child_info fp mps lvl.cluster2 with
    | some (r1, a1), some (r2, a2) =>
        let diff := wrap180 (a2 - a1)
        let arcStart := if 0 ≤ diff then a1 else a2
        let arcEnd := if 0 ≤ diff then a1 + diff else a2 - diff
        [.radial (r1, a1) (lvl.radius, a1),
          .radial (r2, a2) (lvl.radius, a2),
          .arc lvl.radius arcStart arcEnd]
    | _, _ => [])

/-- `get_cluster_id` inside `build_acc2`. -/
def get_cluster_id : Structure → String
  | .leaf n => n
  | .node l r _ _ => "[" ++ get_cluster_id l ++ ", " ++ get_cluster_id r ++ "]"

/-- `get_all_members` inside `build_acc2` (a set; `sorted(...)` at the use
site — canonical insertion order here). -/
def get_all_members (s : Structure) : List String :=
  mkMemberSet (structLeaves s)

/-- `get_node_angle` inside `build_acc2`: a leaf's final angle, or the
wrap-aware midpoint of the children's angles — the same arithmetic as
`calculate_merge_points` (`mergeAngle`).  A leaf missing from `positions`
would raise `KeyError` in the source (unreachable); it contributes the
`0.0` default here. -/
noncomputable def get_node_angle (positions : List (String × AreaPosition)) :
    Structure → ℝ
  | .leaf n => ((dictFind positions n).map (fun p => p.angle)).getD 0
  | .node l r _ _ =>
      mergeAngle (get_node_angle positions l) (get_node_angle positions r)

/-- `parse_structure` inside `build_acc2`: post-order traversal recording a
`MergeLevel` and a merge point per internal node.  (The source's `level_num`
argument is dead — the recorded level is always `len(levels) + 1`.) -/
noncomputable def parse_structure (positions : List (String × AreaPosition)) :
    Structure → List MergeLevel × List (String × MergePoint) →
      List MergeLevel × List (String × MergePoint)
  | .leaf _, acc => acc
  | .node l r nodeAngle nodeRadius, acc =>
      let acc1 := parse_structure positions l acc
      let accR := parse_structure positions r acc1
      let localSim := 1 - nodeAngle / 180
      let globalSim := if 0 < nodeRadius then max (1/10) (1 / (2 * nodeRadius)) else 1/2
      let leftId := get_cluster_id l
      let rightId := get_cluster_id r
      let clusterId := "[" ++ leftId ++ ", " ++ rightId ++ "]"
      let members := get_all_members (.node l r nodeAngle nodeRadius)
      let mergeAngleVal := get_node_angle positions (.node l r nodeAngle nodeRadius)
      let acc2Diameter := 1 + (1 - globalSim)
      let acc2RadiusV := acc2Diameter / 2
      (accR.1 ++ [⟨accR.1.length + 1, leftId, rightId, members, localSim, globalSim,
          acc2Diameter, acc2RadiusV⟩],
        accR.2 ++ [(clusterId, ⟨acc2RadiusV, mergeAngleVal, (leftId, rightId),
          accR.1.length + 1⟩)])

open Classical in
/-- The `max_angle` post-processing of `build_acc2`: when more than one
area is present and the angular span exceeds `max_angle`, scale all angles
affinely around the span's midpoint and recompute `x`, `y` at radius `0.5`
(the `radius` entry is untouched). -/
noncomputable def scalePositions (maxAngle : ℝ)
    (positions : List (String × AreaPosition)) : List (String × AreaPosition) :=
  if 1 < positions.length then
    let angles := positions.map (fun p => p.2.angle)
    let minAng := angles.foldl min (angles.headD 0)
    let maxAng := angles.foldl max (angles.headD 0)
    let span := maxAng - minAng
    if maxAngle < span then
      let scale := maxAngle / span
      let center := (minAng + maxAng) / 2
      positions.map (fun p =>
        let newAngle := (p.2.angle - center) * scale + center
        (p.1, ⟨(1/2 : ℝ) * Real.sin (newAngle * π / 180),
          (1/2 : ℝ) * Real.cos (newAngle * π / 180), p.2.radius, newAngle⟩))
    else positions
  else positions

/-- `sorted(set([0.5] + level radii))`. -/
def sortedUniqueCircles (radii : List ℚ) : List ℚ :=
  ((1/2 :: radii).toFinset).sort (· ≤ ·)

/-- The bundle returned by `build_acc2`. -/
structure ACC2Data where
  levels : List MergeLevel
  positions : List (String × AreaPosition)
  merge_points : List (String × MergePoint)
  lines : List ConnectionLine
  circles : List ℚ

/-- `build_acc2(local_matrix, global_matrix, unit, max_angle)`.  (The
source indexes `clusters[0]` on the final step; the empty-cluster arm is
unreachable — every recorded snapshot holds at least one cluster.) -/
noncomputable def build_acc2 (lm gm : Matrix) (unit : ℚ) (maxAngle : Option ℝ) :
    ACC2Data :=
  match (build_acc_iterative lm gm unit).getLast? with
  | none => ⟨[], [], [], [], [1/2]⟩
  | some final_step =>
      match final_step.clusters.head? with
      | none => ⟨[], [], [], [], [1/2]⟩
      | some final_cluster =>
          let positions0 := (clusterPoints final_cluster).map (fun np =>
            (np.1, (⟨np.2.1, np.2.2, 1/2, compass_angle np.2.1 np.2.2⟩ : AreaPosition)))
          let positions :=
            match maxAngle with
            | some ma => scalePositions ma positions0
            | none => positions0
          let parsed := parse_structure positions final_cluster.struct ([], [])
          let lines := generate_connection_lines parsed.1 positions parsed.2
          ⟨parsed.1, positions, parsed.2, lines,
            sortedUniqueCircles (parsed.1.map (fun l => l.radius))⟩

/-- A concrete three-area local-similarity matrix for exercising the
builder on a full run: `A`–`B` strongly similar (0.8), `C` weakly similar
to both (0.15). -/
def exampleLocalMatrix : Matrix :=
  [("A", [("B", 4/5), ("C", 3/20)]),
   ("B", [("A", 4/5), ("C", 3/20)]),
   ("C", [("A", 3/20), ("B", 3/20)])]

/-- The matching global-similarity matrix: `A`–`B` at 0.5, `C` at 0.35 to
both. -/
def exampleGlobalMatrix : Matrix :=
  [("A", [("B", 1/2), ("C", 7/20)]),
   ("B", [("A", 1/2), ("C", 7/20)]),
   ("C", [("A", 7/20), ("B", 7/20)])]

/-! # Theorems -/

theorem pol2cart_eq_neg_sin_cos (r angleDeg : ℝ) :
    pol2cart r angleDeg =
      (-(r * Real.sin (angleDeg * π / 180)), r * Real.cos (angleDeg * π / 180)) := by
  unfold pol2cart
  have h : (angleDeg + 90) * π / 180 = angleDeg * π / 180 + π / 2 := by ring
  rw [h, Real.cos_add_pi_div_two, Real.sin_add_pi_div_two]
  ring_nf

theorem originDist_pol2cart (r angleDeg : ℝ) :
    originDist (pol2cart r angleDeg) = |r| := by
  unfold originDist pol2cart
  have h : (r * Real.cos ((angleDeg + 90) * π / 180)) ^ 2 +
      (r * Real.sin ((angleDeg + 90) * π / 180)) ^ 2 = r ^ 2 := by
    have := Real.sin_sq_add_cos_sq ((angleDeg + 90) * π / 180)
    nlinarith [this]
  rw [h, Real.sqrt_sq_eq_abs]

theorem pol2cart_one_ninety : pol2cart 1 90 = (-1, 0) := by
  unfold pol2cart
  have h : ((90 : ℝ) + 90) * π / 180 = π := by ring
  rw [h, Real.cos_pi, Real.sin_pi]
  norm_num

/-- C3 counterexample: at `r = 1, θ = 90°` the code's `pol2cart` returns
`(-1, 0)` (due west), not the compass-convention `(sin 90°, cos 90°) = (1, 0)`
(due east) that the claim asserts. -/
theorem C3_counterexample : pol2cart 1 90 ≠ compassPol2cart 1 90 := by
  have h1 : pol2cart 1 90 = (-1, 0) := pol2cart_one_ninety
  have h2 : compassPol2cart 1 90 = (1, 0) := by
    unfold compassPol2cart
    have h : (90 : ℝ) * π / 180 = π / 2 := by ring
    rw [h, Real.sin_pi_div_two, Real.cos_pi_div_two]
    norm_num
  rw [h1, h2]
  intro h
  have := congrArg Prod.fst h
  norm_num at this

/-- C3 (amended): the polar-to-cartesian conversion used for all placements
satisfies `pol2cart(r, θ) = (−r·sin θ, r·cos θ)` for every radius `r` and
angle `θ` in degrees: 0° points north (up the y-axis) and positive angles go
counter-clockwise (toward −x), the mirror image of the compass convention
the spec claims. -/
theorem C3_pol2cart_convention (r angleDeg : ℝ) :
    pol2cart r angleDeg =
      (-(r * Real.sin (angleDeg * π / 180)), r * Real.cos (angleDeg * π / 180)) :=
  pol2cart_eq_neg_sin_cos r angleDeg

/-- The round-trip radius is `|r|` and the round-trip angle is congruent to
the input angle modulo 360°. -/
theorem cart2pol_pol2cart (r angleDeg : ℝ) (hr : 0 < r) :
    ∃ k : ℤ, cart2pol (pol2cart r angleDeg).1 (pol2cart r angleDeg).2 =
      (r, angleDeg + 360 * k) := by
  set a : ℝ := (angleDeg + 90) * π / 180 with ha
  have hp : (0 : ℝ) < 2 * π := by positivity
  set b : ℝ := toIocMod hp (-π) a with hb
  set z : ℤ := toIocDiv hp (-π) a with hz
  have hmem : b ∈ Set.Ioc (-π) (-π + 2 * π) := toIocMod_mem_Ioc hp (-π) a
  have hmem' : b ∈ Set.Ioc (-π) π := by
    constructor
    · exact hmem.1
    · have := hmem.2; linarith
  have hsub : a - b = (z : ℝ) * (2 * π) := by
    have := self_sub_toIocMod hp (-π) a
    rw [← hb, ← hz] at this
    rw [this]
    simp [zsmul_eq_mul]
  have hab : a = b + (z : ℝ) * (2 * π) := by linarith
  have hcos : Real.cos a = Real.cos b := by rw [hab, Real.cos_add_int_mul_two_pi]
  have hsin : Real.sin a = Real.sin b := by rw [hab, Real.sin_add_int_mul_two_pi]
  refine ⟨-z, ?_⟩
  unfold cart2pol pol2cart
  rw [← ha]
  simp only [Prod.mk.injEq]
  constructor
  · -- the radius component
    have h : (r * Real.cos a) ^ 2 + (r * Real.sin a) ^ 2 = r ^ 2 := by
      have := Real.sin_sq_add_cos_sq a
      nlinarith [this]
    rw [h, Real.sqrt_sq_eq_abs, abs_of_pos hr]
  · -- the angle component
    have harg : atan2 (r * Real.sin a) (r * Real.cos a) = b := by
      unfold atan2
      have hmul : (Complex.ofReal (r * Real.cos a) +
          Complex.ofReal (r * Real.sin a) * Complex.I) =
          (r : ℂ) * (Real.cos b + Real.sin b * Complex.I) := by
        rw [hcos, hsin]; push_cast; ring
      rw [hmul, Complex.arg_real_mul _ hr, Complex.ofReal_cos, Complex.ofReal_sin,
        Complex.arg_cos_add_sin_mul_I hmem']
    rw [harg]
    have hpi : (π : ℝ) ≠ 0 := Real.pi_ne_zero
    have hb' : b = a - (z : ℝ) * (2 * π) := by linarith
    rw [hb', ha]
    push_cast
    field_simp
    ring

/-- C5 counterexample: at `r = 1, θ = 180°` the round-trip
`cart2pol(pol2cart(1, 180))` returns `(1, −180)`, not `(1, 180 mod 360) =
(1, 180)`, because `cart2pol` produces angles in `(−270°, 90°]`. -/
theorem C5_counterexample :
    cart2pol (pol2cart 1 180).1 (pol2cart 1 180).2 ≠ (1, 180) := by
  have hpol : pol2cart 1 180 = (0, -1) := by
    unfold pol2cart
    have h : ((180 : ℝ) + 90) * π / 180 = π + π / 2 := by ring
    rw [h, Real.cos_add, Real.sin_add, Real.cos_pi, Real.sin_pi,
      Real.cos_pi_div_two, Real.sin_pi_div_two]
    norm_num
  rw [hpol]
  have hcart : cart2pol 0 (-1) = (1, -180) := by
    unfold cart2pol
    simp only [Prod.mk.injEq]
    constructor
    · norm_num
    · have harg : atan2 (-1) 0 = -(π / 2) := by
        unfold atan2
        have h : (Complex.ofReal 0 + Complex.ofReal (-1) * Complex.I) =
            -Complex.I := by push_cast; ring
        rw [h, Complex.arg_neg_I]
      rw [harg]
      have hpi : (π : ℝ) ≠ 0 := Real.pi_ne_zero
      field_simp
      ring
  rw [hcart]
  intro h
  have := congrArg Prod.snd h
  norm_num at this

/-- C5 (amended): for every `r > 0` and every angle `θ` in degrees,
`cart2pol` applied to `pol2cart(r, θ)` returns `(r, θ′)` where `θ′` is
congruent to `θ` modulo 360° (but is not in general `θ mod 360`:
`cart2pol`'s angle lies in `(−270°, 90°]`, e.g. `θ = 180°` comes back as
`−180°`). -/
theorem C5_roundtrip (r angleDeg : ℝ) (hr : 0 < r) :
    ∃ k : ℤ, cart2pol (pol2cart r angleDeg).1 (pol2cart r angleDeg).2 =
      (r, angleDeg + 360 * k) :=
  cart2pol_pol2cart r angleDeg hr

/-- Witness for `C5_roundtrip` at `r = 1, θ = 45`. -/
theorem C5_roundtrip_witness :
    (0 : ℝ) < 1 ∧
      ∃ k : ℤ, cart2pol (pol2cart 1 45).1 (pol2cart 1 45).2 = (1, 45 + 360 * (k : ℝ)) :=
  ⟨by norm_num, C5_roundtrip 1 45 (by norm_num)⟩

/-! ## List/set helper lemmas -/

theorem mem_pyDedupAux (a : String) (l : List String) :
    ∀ seen, a ∈ pyDedupAux seen l ↔ a ∈ l ∧ a ∉ seen := by
  induction l with
  | nil => intro seen; simp [pyDedupAux]
  | cons x xs ih =>
      intro seen
      by_cases hx : x ∈ seen
      · rw [pyDedupAux, if_pos hx, ih]
        constructor
        · rintro ⟨h1, h2⟩
          exact ⟨List.mem_cons_of_mem _ h1, h2⟩
        · rintro ⟨h1, h2⟩
          rcases List.mem_cons.mp h1 with rfl | h1
          · exact absurd hx h2
          · exact ⟨h1, h2⟩
      · rw [pyDedupAux, if_neg hx]
        rw [List.mem_cons, ih]
        constructor
        · rintro (rfl | ⟨h1, h2⟩)
          · exact ⟨List.mem_cons_self _ _, hx⟩
          · constructor
            · exact List.mem_cons_of_mem _ h1
            · intro hc
              exact h2 (List.mem_cons_of_mem _ hc)
        · rintro ⟨h1, h2⟩
          rcases List.mem_cons.mp h1 with rfl | h1
          · exact Or.inl rfl
          · by_cases hax : a = x
            · exact Or.inl hax
            · refine Or.inr ⟨h1, ?_⟩
              intro hc
              rcases List.mem_cons.mp hc with h | h
              · exact hax h
              · exact h2 h

theorem mem_pyDedup (a : String) (l : List String) : a ∈ pyDedup l ↔ a ∈ l := by
  rw [pyDedup, mem_pyDedupAux]
  simp

theorem pyDedupAux_nodup (l : List String) :
    ∀ seen, (pyDedupAux seen l).Nodup := by
  induction l with
  | nil => intro seen; simp [pyDedupAux]
  | cons x xs ih =>
      intro seen
      by_cases hx : x ∈ seen
      · rw [pyDedupAux, if_pos hx]; exact ih seen
      · rw [pyDedupAux, if_neg hx]
        refine List.nodup_cons.mpr ⟨?_, ih (x :: seen)⟩
        intro hc
        exact ((mem_pyDedupAux x xs (x :: seen)).mp hc).2 (List.mem_cons_self _ _)

theorem pyDedup_nodup (l : List String) : (pyDedup l).Nodup :=
  pyDedupAux_nodup l []

/-! ## Structure/positioning lemmas -/

/-- On rational arguments the cartesian positioning is the polar
positioning followed by `pol2cart`. -/
theorem position_eq_map_polar (s : Structure) (d rs : ℚ) :
    position_structure_recursively s (d : ℝ) (rs : ℝ) =
      (positionPolar s d rs).map (fun x => (x.1, pol2cart (x.2.1 : ℝ) (x.2.2 : ℝ))) := by
  induction s generalizing d rs with
  | leaf name =>
      simp [position_structure_recursively, positionPolar]
  | node l r angle radius ihl ihr =>
      simp only [position_structure_recursively, positionPolar, List.map_append]
      have hl := ihl (d - angle / 2) (childRadius l radius)
      have hr := ihr (d + angle / 2) (childRadius r radius)
      push_cast at hl hr ⊢
      rw [hl, hr]

theorem positionPolar_radii (s : Structure) (d rs : ℚ) :
    (positionPolar s d rs).map (fun x => (x.1, x.2.1)) = radiiList s rs := by
  induction s generalizing d rs with
  | leaf name => simp [positionPolar, radiiList]
  | node l r angle radius ihl ihr =>
      simp only [positionPolar, radiiList, List.map_append]
      rw [ihl, ihr]

theorem radiiList_map_fst (s : Structure) (rs : ℚ) :
    (radiiList s rs).map Prod.fst = structLeaves s := by
  induction s generalizing rs with
  | leaf name => simp [radiiList, structLeaves]
  | node l r angle radius ihl ihr =>
      simp only [radiiList, structLeaves, List.map_append]
      rw [ihl, ihr]

theorem radiiList_node_irrel (l r : Structure) (a rad : ℚ) (rs rs' : ℚ) :
    radiiList (.node l r a rad) rs = radiiList (.node l r a rad) rs' := rfl

/-! ## C4: cluster geometry formulas and bounds -/

theorem diameter_formula_pos (unit gs : ℚ) (hu : 0 < unit) :
    0 < (if 0 < gs then unit / gs else unit * 100) := by
  split_ifs with h
  · exact div_pos hu h
  · linarith

/-- C4: clusters produced by the placer (`place_first_two_areas` and
`add_area_to_cluster`) have `diameter = unit/global_sim` when
`global_sim > 0` and `diameter = unit×100` otherwise — hence a positive
diameter whenever `unit > 0`, with no division by zero — and
`angle = 180×(1 − local_sim)`, which lies in `[0°, 180°]` whenever
`local_sim ∈ [0, 1]`. -/
theorem C4_geometry_formulas (a1 a2 : String) (ls gs unit : ℚ) (c : Cluster)
    (area : String) (lm gm : Matrix) (hu : 0 < unit) :
    ((place_first_two_areas a1 a2 ls gs unit).diameter =
        (if 0 < gs then unit / gs else unit * 100) ∧
      0 < (place_first_two_areas a1 a2 ls gs unit).diameter ∧
      (place_first_two_areas a1 a2 ls gs unit).angle = 180 * (1 - ls) ∧
      (0 ≤ ls → ls ≤ 1 →
        0 ≤ (place_first_two_areas a1 a2 ls gs unit).angle ∧
          (place_first_two_areas a1 a2 ls gs unit).angle ≤ 180)) ∧
    ((add_area_to_cluster c area lm gm unit).diameter =
        (if 0 < (add_area_to_cluster c area lm gm unit).global_sim then
          unit / (add_area_to_cluster c area lm gm unit).global_sim
        else unit * 100) ∧
      0 < (add_area_to_cluster c area lm gm unit).diameter ∧
      (add_area_to_cluster c area lm gm unit).angle =
        180 * (1 - (add_area_to_cluster c area lm gm unit).local_sim) ∧
      (0 ≤ (add_area_to_cluster c area lm gm unit).local_sim →
        (add_area_to_cluster c area lm gm unit).local_sim ≤ 1 →
        0 ≤ (add_area_to_cluster c area lm gm unit).angle ∧
          (add_area_to_cluster c area lm gm unit).angle ≤ 180)) := by
  refine ⟨⟨?_, ?_, ?_, ?_⟩, ?_, ?_, ?_, ?_⟩
  · simp only [place_first_two_areas, gt_iff_lt]
    ring
  · simp only [place_first_two_areas, gt_iff_lt]
    have := diameter_formula_pos unit gs hu
    linarith
  · simp only [place_first_two_areas]
  · intro h1 h2
    simp only [place_first_two_areas]
    constructor <;> nlinarith
  · simp only [add_area_to_cluster, gt_iff_lt]
  · simp only [add_area_to_cluster, gt_iff_lt]
    exact diameter_formula_pos unit _ hu
  · simp only [add_area_to_cluster]
  · intro h1 h2
    simp only [add_area_to_cluster] at h1 h2 ⊢
    constructor <;> nlinarith

/-- Witness for `C4_geometry_formulas` at concrete inputs. -/
theorem C4_geometry_formulas_witness :
    (0 : ℚ) < 1 ∧
    ((place_first_two_areas "A" "B" (9/10) (4/5) 1).diameter =
        (if 0 < (4/5 : ℚ) then 1 / (4/5) else 1 * 100) ∧
      0 < (place_first_two_areas "A" "B" (9/10) (4/5) 1).diameter ∧
      (place_first_two_areas "A" "B" (9/10) (4/5) 1).angle = 180 * (1 - 9/10) ∧
      (0 ≤ (9/10 : ℚ) → (9/10 : ℚ) ≤ 1 →
        0 ≤ (place_first_two_areas "A" "B" (9/10) (4/5) 1).angle ∧
          (place_first_two_areas "A" "B" (9/10) (4/5) 1).angle ≤ 180)) ∧
    ((add_area_to_cluster (place_first_two_areas "A" "B" (9/10) (4/5) 1) "C" [] [] 1).diameter =
        (if 0 < (add_area_to_cluster (place_first_two_areas "A" "B" (9/10) (4/5) 1) "C" [] [] 1).global_sim then
          1 / (add_area_to_cluster (place_first_two_areas "A" "B" (9/10) (4/5) 1) "C" [] [] 1).global_sim
        else 1 * 100) ∧
      0 < (add_area_to_cluster (place_first_two_areas "A" "B" (9/10) (4/5) 1) "C" [] [] 1).diameter ∧
      (add_area_to_cluster (place_first_two_areas "A" "B" (9/10) (4/5) 1) "C" [] [] 1).angle =
        180 * (1 - (add_area_to_cluster (place_first_two_areas "A" "B" (9/10) (4/5) 1) "C" [] [] 1).local_sim) ∧
      (0 ≤ (add_area_to_cluster (place_first_two_areas "A" "B" (9/10) (4/5) 1) "C" [] [] 1).local_sim →
        (add_area_to_cluster (place_first_two_areas "A" "B" (9/10) (4/5) 1) "C" [] [] 1).local_sim ≤ 1 →
        0 ≤ (add_area_to_cluster (place_first_two_areas "A" "B" (9/10) (4/5) 1) "C" [] [] 1).angle ∧
          (add_area_to_cluster (place_first_two_areas "A" "B" (9/10) (4/5) 1) "C" [] [] 1).angle ≤ 180)) :=
  ⟨by norm_num,
    C4_geometry_formulas "A" "B" (9/10) (4/5) 1
      (place_first_two_areas "A" "B" (9/10) (4/5) 1) "C" [] [] (by norm_num)⟩

/-! ## C6: linkage aggregation fallback policy -/

/-- C6: in the cluster–area and cluster–cluster linkage aggregations,
pairs with no defined similarity are skipped (the aggregate is the mean of
exactly the defined cross-pair similarities); when no cross pair has data
the aggregate defaults to `0.5` (no error is possible — the functions are
total); and the within-cluster average for a singleton member set is `1.0`. -/
theorem C6_linkage_fallback :
    (∀ (c : Cluster) (a : String) (lm gm : Matrix) (unit : ℚ),
        (∀ m ∈ c.members, get_similarity lm m a = none) →
          (add_area_to_cluster c a lm gm unit).local_sim = 1/2) ∧
    (∀ (c : Cluster) (a : String) (lm gm : Matrix) (unit : ℚ),
        (∀ m ∈ c.members, get_similarity gm m a = none) →
          (add_area_to_cluster c a lm gm unit).global_sim = 1/2) ∧
    (∀ (c1 c2 : Cluster) (lm gm : Matrix) (unit : ℚ),
        (∀ m1 ∈ c1.members, ∀ m2 ∈ c2.members, get_similarity lm m1 m2 = none) →
          (merge_two_clusters c1 c2 lm gm unit).local_sim = 1/2) ∧
    (∀ (c1 c2 : Cluster) (lm gm : Matrix) (unit : ℚ),
        (∀ m1 ∈ c1.members, ∀ m2 ∈ c2.members, get_similarity gm m1 m2 = none) →
          (merge_two_clusters c1 c2 lm gm unit).global_sim = 1/2) ∧
    (∀ (c : Cluster) (a : String) (lm gm : Matrix) (unit : ℚ),
        c.members.filterMap (fun m => get_similarity lm m a) ≠ [] →
          (add_area_to_cluster c a lm gm unit).local_sim =
            (c.members.filterMap (fun m => get_similarity lm m a)).sum /
              ((c.members.filterMap (fun m => get_similarity lm m a)).length : ℚ)) ∧
    (∀ (a : String) (m : Matrix), average_pairwise_similarity [a] m = 1) := by
  refine ⟨?_, ?_, ?_, ?_, ?_, ?_⟩
  · intro c a lm gm unit h
    have hnil : c.members.filterMap (fun m => get_similarity lm m a) = [] :=
      List.filterMap_eq_nil_iff.mpr h
    simp only [add_area_to_cluster, hnil]
    norm_num
  · intro c a lm gm unit h
    have hnil : c.members.filterMap (fun m => get_similarity gm m a) = [] :=
      List.filterMap_eq_nil_iff.mpr h
    simp only [add_area_to_cluster, hnil]
    norm_num
  · intro c1 c2 lm gm unit h
    have hnil : (c1.members.flatMap (fun m1 => c2.members.map (fun m2 => (m1, m2)))).filterMap
        (fun p => get_similarity lm p.1 p.2) = [] := by
      refine List.filterMap_eq_nil_iff.mpr ?_
      intro p hp
      rw [List.mem_flatMap] at hp
      obtain ⟨m1, hm1, hp2⟩ := hp
      rw [List.mem_map] at hp2
      obtain ⟨m2, hm2, rfl⟩ := hp2
      exact h m1 hm1 m2 hm2
    simp only [merge_two_clusters, hnil]
    norm_num
  · intro c1 c2 lm gm unit h
    have hnil : (c1.members.flatMap (fun m1 => c2.members.map (fun m2 => (m1, m2)))).filterMap
        (fun p => get_similarity gm p.1 p.2) = [] := by
      refine List.filterMap_eq_nil_iff.mpr ?_
      intro p hp
      rw [List.mem_flatMap] at hp
      obtain ⟨m1, hm1, hp2⟩ := hp
      rw [List.mem_map] at hp2
      obtain ⟨m2, hm2, rfl⟩ := hp2
      exact h m1 hm1 m2 hm2
    simp only [merge_two_clusters, hnil]
    norm_num
  · intro c a lm gm unit h
    have hlen : 0 < (c.members.filterMap (fun m => get_similarity lm m a)).length :=
      List.length_pos.mpr h
    simp only [add_area_to_cluster, if_pos hlen]
  · intro a m
    simp [average_pairwise_similarity]

/-- Witness for `C6_linkage_fallback`: attaching `C` to the `{A, B}` cluster
with empty matrices (no defined pair) yields the `0.5` fallback. -/
theorem C6_linkage_fallback_witness :
    (∀ m ∈ (place_first_two_areas "A" "B" (9/10) (4/5) 1).members,
        get_similarity [] m "C" = none) ∧
      (add_area_to_cluster (place_first_two_areas "A" "B" (9/10) (4/5) 1)
        "C" [] [] 1).local_sim = 1/2 :=
  ⟨by decide,
    C6_linkage_fallback.1 (place_first_two_areas "A" "B" (9/10) (4/5) 1)
      "C" [] [] 1 (by decide)⟩

/-! ## C10: the `build_acc2` bundle invariant -/

theorem sortedUniqueCircles_sorted (radii : List ℚ) :
    List.Sorted (· < ·) (sortedUniqueCircles radii) :=
  Finset.sort_sorted_lt _

theorem mem_sortedUniqueCircles_half (radii : List ℚ) :
    (1/2 : ℚ) ∈ sortedUniqueCircles radii := by
  rw [sortedUniqueCircles, Finset.mem_sort, List.mem_toFinset]
  exact List.mem_cons_self _ _

theorem scalePositions_radius (ma : ℝ) (ps : List (String × AreaPosition))
    (h : ∀ e ∈ ps, e.2.radius = 1/2) :
    ∀ e ∈ scalePositions ma ps, e.2.radius = 1/2 := by
  intro e he
  simp only [scalePositions] at he
  split_ifs at he with h1 h2
  · rw [List.mem_map] at he
    obtain ⟨p, hp, rfl⟩ := he
    exact h p hp
  · exact h e he
  · exact h e he

/-- C10: in the bundle returned by `build_acc2`, every area entry of
`positions` carries radius exactly `0.5`, and `circles` is strictly
ascending (in particular duplicate-free) and always contains `0.5` — also
on empty input, where `circles = [0.5]`. -/
theorem C10_acc2_bundle_invariant (lm gm : Matrix) (unit : ℚ) (maxAngle : Option ℝ) :
    (∀ e ∈ (build_acc2 lm gm unit maxAngle).positions, e.2.radius = 1/2) ∧
    List.Sorted (· < ·) (build_acc2 lm gm unit maxAngle).circles ∧
    (build_acc2 lm gm unit maxAngle).circles.Nodup ∧
    (1/2 : ℚ) ∈ (build_acc2 lm gm unit maxAngle).circles := by
  cases hL : (build_acc_iterative lm gm unit).getLast? with
  | none =>
      simp only [build_acc2, hL]
      refine ⟨by simp, by simp, by simp, by simp⟩
  | some final_step =>
      cases hH : final_step.clusters.head? with
      | none =>
          simp only [build_acc2, hL, hH]
          refine ⟨by simp, by simp, by simp, by simp⟩
      | some final_cluster =>
          simp only [build_acc2, hL, hH]
          have hpos0 : ∀ e ∈ (clusterPoints final_cluster).map (fun np =>
              (np.1, (⟨np.2.1, np.2.2, 1/2, compass_angle np.2.1 np.2.2⟩ : AreaPosition))),
              e.2.radius = 1/2 := by
            intro e he
            rw [List.mem_map] at he
            obtain ⟨np, _, rfl⟩ := he
            rfl
          refine ⟨?_, sortedUniqueCircles_sorted _,
            (sortedUniqueCircles_sorted _).nodup, mem_sortedUniqueCircles_half _⟩
          cases maxAngle with
          | none => exact hpos0
          | some ma => exact scalePositions_radius ma _ hpos0

/-! ## C8: ACC2 merge-level radius bound -/

theorem analyzeLoop_radius (lm gm : Matrix) (fuel : ℕ) :
    ∀ (clusters : List (String × List String)) (levels : List MergeLevel)
      (level : ℕ),
      (∀ L ∈ levels, L.radius = (1 + (1 - L.global_sim)) / 2) →
      ∀ L ∈ analyzeLoop lm gm fuel clusters levels level,
        L.radius = (1 + (1 - L.global_sim)) / 2 := by
  induction fuel with
  | zero =>
      intro clusters levels level h L hL
      rw [analyzeLoop] at hL
      exact h L hL
  | succ n ih =>
      intro clusters levels level h L hL
      rw [analyzeLoop] at hL
      by_cases hlen : 1 < clusters.length
      · rw [if_pos hlen] at hL
        cases hfb : find_best_merge clusters lm with
        | none =>
            rw [hfb] at hL
            exact h L hL
        | some best =>
            obtain ⟨c1id, c2id, localSim⟩ := best
            rw [hfb] at hL
            refine ih _ _ _ ?_ L hL
            intro L' hL'
            rcases List.mem_append.mp hL' with h' | h'
            · exact h L' h'
            · rw [List.mem_singleton] at h'
              subst h'
              rfl
      · rw [if_neg hlen] at hL
        exact h L hL

/-- C8: every merge level produced by `analyze_dendrogram_levels` has
`radius = (1 + (1 − global_sim))/2`; hence for `global_sim ∈ [0, 1]` the
radius lies in `[0.5, 1.0]`, with `global_sim = 0` giving exactly `1.0` and
`global_sim = 1` exactly `0.5`. -/
theorem C8_acc2_radius_bound (lm gm : Matrix) (L : MergeLevel)
    (hL : L ∈ analyze_dendrogram_levels lm gm) :
    L.radius = (1 + (1 - L.global_sim)) / 2 ∧
    (0 ≤ L.global_sim → L.global_sim ≤ 1 → 1/2 ≤ L.radius ∧ L.radius ≤ 1) ∧
    (L.global_sim = 0 → L.radius = 1) ∧
    (L.global_sim = 1 → L.radius = 1/2) := by
  rw [analyze_dendrogram_levels] at hL
  have hr : L.radius = (1 + (1 - L.global_sim)) / 2 :=
    analyzeLoop_radius lm gm _ _ _ _ (by simp) L hL
  refine ⟨hr, ?_, ?_, ?_⟩
  · intro h0 h1
    rw [hr]
    constructor <;> linarith
  · intro h0
    rw [hr, h0]
    norm_num
  · intro h1
    rw [hr, h1]
    norm_num

/-- Witness for `C8_acc2_radius_bound`: on the two-area matrix with
similarity `1`, the single merge level has `global_sim = 1` and
`radius = 0.5`. -/
theorem C8_acc2_radius_bound_witness :
    (⟨1, "A", "B", ["A", "B"], 1, 1, 1, 1/2⟩ : MergeLevel) ∈
        analyze_dendrogram_levels [("A", [("B", 1)]), ("B", [])]
          [("A", [("B", 1)]), ("B", [])] ∧
      (⟨1, "A", "B", ["A", "B"], 1, 1, 1, 1/2⟩ : MergeLevel).radius =
        (1 + (1 - (⟨1, "A", "B", ["A", "B"], 1, 1, 1, 1/2⟩ : MergeLevel).global_sim)) / 2 :=
  ⟨by decide,
    (C8_acc2_radius_bound [("A", [("B", 1)]), ("B", [])]
      [("A", [("B", 1)]), ("B", [])] _ (by decide)).1⟩

/-! ## C9: merge-point angles (circular midpoint along the shorter arc) -/

theorem wrapDown_le (x : ℝ) : wrapDown x ≤ 180 := by
  induction x using wrapDown.induct with
  | case1 x h ih => rw [wrapDown, dif_pos h]; exact ih
  | case2 x h => rw [wrapDown, dif_neg h]; linarith

theorem wrapDown_congr (x : ℝ) : ∃ k : ℤ, wrapDown x = x - 360 * k := by
  induction x using wrapDown.induct with
  | case1 x h ih =>
      obtain ⟨k, hk⟩ := ih
      refine ⟨k + 1, ?_⟩
      rw [wrapDown, dif_pos h, hk]
      push_cast
      ring
  | case2 x h => exact ⟨0, by rw [wrapDown, dif_neg h]; ring⟩

theorem wrapUp_ge (x : ℝ) : -180 ≤ wrapUp x := by
  induction x using wrapUp.induct with
  | case1 x h ih => rw [wrapUp, dif_pos h]; exact ih
  | case2 x h => rw [wrapUp, dif_neg h]; linarith

theorem wrapUp_le (x : ℝ) (hx : x ≤ 180) : wrapUp x ≤ 180 := by
  induction x using wrapUp.induct with
  | case1 x h ih =>
      rw [wrapUp, dif_pos h]
      exact ih (by linarith)
  | case2 x h => rw [wrapUp, dif_neg h]; exact hx

theorem wrapUp_congr (x : ℝ) : ∃ k : ℤ, wrapUp x = x - 360 * k := by
  induction x using wrapUp.induct with
  | case1 x h ih =>
      obtain ⟨k, hk⟩ := ih
      refine ⟨k - 1, ?_⟩
      rw [wrapUp, dif_pos h, hk]
      push_cast
      ring
  | case2 x h => exact ⟨0, by rw [wrapUp, dif_neg h]; ring⟩

theorem wrap180_mem (x : ℝ) : -180 ≤ wrap180 x ∧ wrap180 x ≤ 180 :=
  ⟨wrapUp_ge _, wrapUp_le _ (wrapDown_le x)⟩

theorem wrap180_congr (x : ℝ) : ∃ k : ℤ, wrap180 x = x - 360 * k := by
  obtain ⟨k1, hk1⟩ := wrapDown_congr x
  obtain ⟨k2, hk2⟩ := wrapUp_congr (wrapDown x)
  refine ⟨k1 + k2, ?_⟩
  rw [wrap180, hk2, hk1]
  push_cast
  ring

theorem wrap180_eq_self (x : ℝ) (h1 : -180 ≤ x) (h2 : x ≤ 180) :
    wrap180 x = x := by
  have hd : wrapDown x = x := by
    rw [wrapDown, dif_neg (by linarith : ¬ (180 : ℝ) < x)]
  rw [wrap180, hd, wrapUp, dif_neg (by linarith : ¬ x < (-180 : ℝ))]

theorem abs_eq_of_bounded_congr (u v : ℝ) (hu1 : -180 ≤ u) (hu2 : u ≤ 180)
    (hv1 : -180 ≤ v) (hv2 : v ≤ 180) (k : ℤ) (h : u - v = 360 * k) :
    |u| = |v| := by
  have hk1 : (-1 : ℤ) ≤ k := by
    by_contra hc
    push_neg at hc
    have hc' : k ≤ -2 := by omega
    have : (k : ℝ) ≤ -2 := by exact_mod_cast hc'
    nlinarith
  have hk2 : k ≤ 1 := by
    by_contra hc
    push_neg at hc
    have hc' : 2 ≤ k := by omega
    have : (2 : ℝ) ≤ (k : ℝ) := by exact_mod_cast hc'
    nlinarith
  interval_cases k
  · -- k = -1 : u = -180 and v = 180
    have hk : (((-1 : ℤ) : ℝ)) = -1 := by norm_num
    rw [hk] at h
    have hu : u = -180 := by linarith
    have hv : v = 180 := by linarith
    rw [hu, hv]
    simp
  · -- k = 0 : u = v
    have hk : (((0 : ℤ) : ℝ)) = 0 := by norm_num
    rw [hk] at h
    have : u = v := by linarith
    rw [this]
  · -- k = 1 : u = 180 and v = -180
    have hk : (((1 : ℤ) : ℝ)) = 1 := by norm_num
    rw [hk] at h
    have hu : u = 180 := by linarith
    have hv : v = -180 := by linarith
    rw [hu, hv]
    simp

theorem wrap180_abs_congr (x y : ℝ) (k : ℤ) (h : x - y = 360 * k) :
    |wrap180 x| = |wrap180 y| := by
  obtain ⟨k1, hk1⟩ := wrap180_congr x
  obtain ⟨k2, hk2⟩ := wrap180_congr y
  refine abs_eq_of_bounded_congr _ _ (wrap180_mem x).1 (wrap180_mem x).2
    (wrap180_mem y).1 (wrap180_mem y).2 (k - k1 + k2) ?_
  rw [hk1, hk2]
  push_cast
  linarith

theorem circDist_mergeAngle (a1 a2 : ℝ) :
    circDist (mergeAngle a1 a2) a1 = circDist a1 a2 / 2 ∧
    circDist (mergeAngle a1 a2) a2 = circDist a1 a2 / 2 := by
  have hwb := wrap180_mem (a2 - a1)
  obtain ⟨k0, hk0⟩ := wrap180_congr (a2 - a1)
  obtain ⟨k1, hk1⟩ := wrap180_congr (a1 + wrap180 (a2 - a1) / 2)
  have hdist : circDist a1 a2 = |wrap180 (a2 - a1)| := by
    rw [circDist]
    have h1 : (a1 - a2) - (-(wrap180 (a2 - a1))) = 360 * (-k0 : ℤ) := by
      rw [hk0]
      push_cast
      ring
    rw [wrap180_abs_congr _ _ _ h1,
      wrap180_eq_self _ (by linarith [hwb.2]) (by linarith [hwb.1]), abs_neg]
  have hhalf : |wrap180 (a2 - a1) / 2| = |wrap180 (a2 - a1)| / 2 := by
    rw [abs_div]
    norm_num
  constructor
  · rw [circDist, hdist]
    have h1 : (mergeAngle a1 a2 - a1) - wrap180 (a2 - a1) / 2 = 360 * (-k1 : ℤ) := by
      rw [mergeAngle, hk1]
      push_cast
      ring
    rw [wrap180_abs_congr _ _ _ h1,
      wrap180_eq_self _ (by linarith [hwb.1]) (by linarith [hwb.2]), hhalf]
  · rw [circDist, hdist]
    have h1 : (mergeAngle a1 a2 - a2) - (-(wrap180 (a2 - a1) / 2)) =
        360 * (-k1 - k0 : ℤ) := by
      rw [mergeAngle, hk1, hk0]
      push_cast
      ring
    rw [wrap180_abs_congr _ _ _ h1,
      wrap180_eq_self _ (by linarith [hwb.2]) (by linarith [hwb.1]), abs_neg, hhalf]

theorem mergeAngle_wrap_example : mergeAngle 170 (-170) = 180 := by
  have h1 : wrap180 ((-170 : ℝ) - 170) = 20 := by
    rw [wrap180]
    rw [wrapDown, dif_neg (by norm_num : ¬ (180 : ℝ) < -170 - 170)]
    rw [wrapUp, dif_pos (by norm_num : (-170 : ℝ) - 170 < -180)]
    have h2 : (-170 : ℝ) - 170 + 360 = 20 := by norm_num
    rw [h2]
    rw [wrapUp, dif_neg (by norm_num : ¬ (20 : ℝ) < -180)]
  rw [mergeAngle, h1]
  have h3 : (170 : ℝ) + 20 / 2 = 180 := by norm_num
  rw [h3, wrap180]
  rw [wrapDown, dif_neg (by norm_num : ¬ (180 : ℝ) < 180)]
  rw [wrapUp, dif_neg (by norm_num : ¬ (180 : ℝ) < -180)]

/-- C9: the angle recorded for every merge point by
`calculate_merge_points` is `mergeAngle` of its two children's angles, and
`mergeAngle` is the circular midpoint along the shorter arc: its circular
distance to each child is half the circular distance between the children,
and it is normalized to `[-180°, 180°]`; in particular children at `170°`
and `-170°` yield `180°` (never `0°`). -/
theorem C9_merge_point_angle :
    (∀ (levels : List MergeLevel) (fp : List (String × AreaPosition))
        (out : List (String × MergePoint)),
        calculate_merge_points levels fp = some out →
        ∀ e ∈ out, ∃ a1 a2, e.2.angle = mergeAngle a1 a2) ∧
    (∀ a1 a2 : ℝ,
        circDist (mergeAngle a1 a2) a1 = circDist a1 a2 / 2 ∧
        circDist (mergeAngle a1 a2) a2 = circDist a1 a2 / 2 ∧
        -180 ≤ mergeAngle a1 a2 ∧ mergeAngle a1 a2 ≤ 180) ∧
    mergeAngle 170 (-170) = 180 ∧ mergeAngle 170 (-170) ≠ 0 := by
  refine ⟨?_, ?_, mergeAngle_wrap_example, by rw [mergeAngle_wrap_example]; norm_num⟩
  · intro levels fp out hout e he
    have inv : ∀ (acc : Option (List (String × MergePoint))),
        (∀ mps, acc = some mps → ∀ e ∈ mps, ∃ a1 a2, e.2.angle = mergeAngle a1 a2) →
        ∀ l ∈ levels, True := fun _ _ _ _ => trivial
    -- fold invariant over the levels
    clear inv
    have main : ∀ (ls : List MergeLevel) (acc : Option (List (String × MergePoint))),
        (∀ mps, acc = some mps → ∀ e ∈ mps, ∃ a1 a2, e.2.angle = mergeAngle a1 a2) →
        ∀ mps, (ls.foldl (fun acc lvl =>
          match acc with
          | none => none
          | some mps =>
              match getChildAngle fp mps lvl.cluster1,
                  getChildAngle fp mps lvl.cluster2 with
              | some a1, some a2 =>
                  some (mps ++ [("[" ++ lvl.cluster1 ++ ", " ++ lvl.cluster2 ++ "]",
                    ⟨lvl.radius, mergeAngle a1 a2, (lvl.cluster1, lvl.cluster2),
                      lvl.level⟩)])
              | _, _ => none) acc) = some mps →
          ∀ e ∈ mps, ∃ a1 a2, e.2.angle = mergeAngle a1 a2 := by
      intro ls
      induction ls with
      | nil =>
          intro acc hacc mps hmps
          exact hacc mps hmps
      | cons lvl rest ih =>
          intro acc hacc mps hmps
          rw [List.foldl_cons] at hmps
          refine ih _ ?_ mps hmps
          intro mps' hmps' e' he'
          cases acc with
          | none => simp at hmps'
          | some base =>
              have hbase := hacc base rfl
              cases h1 : getChildAngle fp base lvl.cluster1 with
              | none => simp [h1] at hmps'
              | some a1 =>
                  cases h2 : getChildAngle fp base lvl.cluster2 with
                  | none => simp [h1, h2] at hmps'
                  | some a2 =>
                      simp only [h1, h2, Option.some.injEq] at hmps'
                      subst hmps'
                      rcases List.mem_append.mp he' with h' | h'
                      · exact hbase e' h'
                      · rw [List.mem_singleton] at h'
                        subst h'
                        exact ⟨a1, a2, rfl⟩
    rw [calculate_merge_points] at hout
    exact main levels (some []) (by simp) out hout e he
  · intro a1 a2
    obtain ⟨h1, h2⟩ := circDist_mergeAngle a1 a2
    exact ⟨h1, h2, (wrap180_mem _).1, (wrap180_mem _).2⟩

/-- Witness for `C9_merge_point_angle`: a single level whose children sit
at `170°` and `-170°` produces the merge angle `mergeAngle 170 (-170)`,
which is `180°`. -/
theorem C9_merge_point_angle_witness :
    calculate_merge_points
        [⟨1, "A", "B", ["A", "B"], 1, 1, 1, 1/2⟩]
        [("A", ⟨0, 0, 1/2, 170⟩), ("B", ⟨0, 0, 1/2, -170⟩)] =
      some [("[A, B]", ⟨1/2, mergeAngle 170 (-170), ("A", "B"), 1⟩)] ∧
    (∀ e ∈ [("[A, B]", (⟨1/2, mergeAngle 170 (-170), ("A", "B"), 1⟩ : MergePoint))],
        ∃ a1 a2, e.2.angle = mergeAngle a1 a2) ∧
    mergeAngle 170 (-170) = 180 := by
  have hcalc : calculate_merge_points
      [⟨1, "A", "B", ["A", "B"], 1, 1, 1, 1/2⟩]
      [("A", ⟨0, 0, 1/2, 170⟩), ("B", ⟨0, 0, 1/2, -170⟩)] =
      some [("[A, B]", ⟨1/2, mergeAngle 170 (-170), ("A", "B"), 1⟩)] := by
    rfl
  refine ⟨hcalc, C9_merge_point_angle.1 _ _ _ hcalc, C9_merge_point_angle.2.2.1⟩

/-! ## C7: the builder surfaces an incomplete build instead of raising -/

/-- C7: if the candidate search returns no candidate while unplaced areas
remain or more than one active cluster remains, the builder stops and
returns the steps recorded so far.  (The embedding is a total function —
no exception is possible; every error path returns the recorded steps.) -/
theorem C7_no_candidate_stops (lm gm : Matrix) (unit : ℚ) (fuel : ℕ)
    (st : BuildState)
    (hwork : st.placed_areas.length < (pyDedup (lm.map Prod.fst)).length ∨
      1 < st.active_clusters.length)
    (hnone : find_highest_similarity_with_clusters lm gm st.placed_areas
      st.active_clusters = none) :
    buildLoop lm gm unit (fuel + 1) st = st.steps := by
  rw [buildLoop, if_pos hwork, hnone]

/-- Witness for `C7_no_candidate_stops`: areas `A`, `B`, `C` where only the
pair `A`–`B` has a defined similarity.  After the initial step `C` is
unplaced but nothing is scorable, and the builder returns the single
recorded step.  The last conjunct checks the full `build_acc_iterative` run
on the same input. -/
theorem C7_no_candidate_stops_witness :
    ((["A", "B"] : List String).length <
        (pyDedup ([("A", [("B", 9/10)]), ("B", []), ("C", [])].map Prod.fst)).length ∨
      1 < [place_first_two_areas "A" "B" (9/10) (9/10) 1].length) ∧
    find_highest_similarity_with_clusters [("A", [("B", 9/10)]), ("B", []), ("C", [])]
      [("A", [("B", 9/10)]), ("B", []), ("C", [])] ["A", "B"]
      [place_first_two_areas "A" "B" (9/10) (9/10) 1] = none ∧
    buildLoop [("A", [("B", 9/10)]), ("B", []), ("C", [])]
      [("A", [("B", 9/10)]), ("B", []), ("C", [])] 1 2
      ⟨["A", "B"], [place_first_two_areas "A" "B" (9/10) (9/10) 1],
        [⟨0, "initial", [place_first_two_areas "A" "B" (9/10) (9/10) 1],
          ["A", "B"], ["A", "B"]⟩], 1⟩ =
      [⟨0, "initial", [place_first_two_areas "A" "B" (9/10) (9/10) 1],
        ["A", "B"], ["A", "B"]⟩] ∧
    build_acc_iterative [("A", [("B", 9/10)]), ("B", []), ("C", [])]
      [("A", [("B", 9/10)]), ("B", []), ("C", [])] 1 =
      [⟨0, "initial", [place_first_two_areas "A" "B" (9/10) (9/10) 1],
        ["A", "B"], ["A", "B"]⟩] :=
  ⟨by decide, by decide,
    C7_no_candidate_stops _ _ 1 1 _ (by decide) (by decide),
    by decide⟩

/-! ## C2: the first action on the concrete scenario

`local = {"A": {"B": 0.9, "C": 0.5}, "B": {"C": 0.5}}`,
`global(A, B) = 0.8`. -/

theorem sin_nine_deg_pos : 0 < Real.sin (9 * π / 180) := by
  apply Real.sin_pos_of_pos_of_lt_pi
  · positivity
  · nlinarith [Real.pi_pos]

/-- C2 counterexample: the builder places `A` at the code's
`pol2cart(0.625, −9°)`, whose cartesian position is east of north — not
the compass-convention rendering of `polar(0.625, −9°)` (west of north)
that the claim asserts. -/
theorem C2_counterexample :
    (build_acc_iterative [("A", [("B", 9/10), ("C", 1/2)]), ("B", [("C", 1/2)])]
        [("A", [("B", 4/5)])] 1).map
        (fun s => s.clusters.map (fun c => c.pointsPolar)) =
      [[[("A", 5/8, -9), ("B", 5/8, 9)]]] ∧
    pol2cart (5/8) (-9) ≠ compassPol2cart (5/8) (-9) := by
  constructor
  · decide
  · have hx1 : (pol2cart (5/8) (-9)).1 = 5/8 * Real.cos ((81 : ℝ) * π / 180) := by
      rw [pol2cart]
      norm_num
    have hx2 : (compassPol2cart (5/8) (-9)).1 = -(5/8 * Real.sin ((9 : ℝ) * π / 180)) := by
      rw [compassPol2cart]
      have h9 : ((-9 : ℝ)) * π / 180 = -(9 * π / 180) := by ring
      rw [h9, Real.sin_neg]
      ring
    have hcospos : 0 < Real.cos ((81 : ℝ) * π / 180) := by
      apply Real.cos_pos_of_mem_Ioo
      constructor
      · nlinarith [Real.pi_pos]
      · nlinarith [Real.pi_pos]
    intro h
    have hfst := congrArg Prod.fst h
    rw [hx1, hx2] at hfst
    nlinarith [sin_nine_deg_pos]

/-- C2 (amended): on `local = {"A": {"B": 0.9, "C": 0.5}, "B": {"C": 0.5}}`
with global similarity `0.8` for `(A, B)`, the builder's first action
selects the pair `A, B` with score `0.9`, computes `diameter = 1/0.8 =
1.25` and `angle = 180×0.1 = 18°`, and places `A` at `pol2cart(0.625, −9°)`
and `B` at `pol2cart(0.625, +9°)` — in the code's own polar convention
`(x, y) = (−r·sin θ, r·cos θ)`, which is the mirror image of the compass
convention (under the compass reading, `A` sits at `+9°` and `B` at `−9°`). -/
theorem C2_first_action :
    find_highest_similarity_pair [("A", [("B", 9/10), ("C", 1/2)]), ("B", [("C", 1/2)])] =
      some ("A", "B", 9/10) ∧
    build_acc_iterative [("A", [("B", 9/10), ("C", 1/2)]), ("B", [("C", 1/2)])]
        [("A", [("B", 4/5)])] 1 =
      [⟨0, "initial", [place_first_two_areas "A" "B" (9/10) (4/5) 1],
        ["A", "B"], ["A", "B"]⟩] ∧
    (place_first_two_areas "A" "B" (9/10) (4/5) 1).diameter = 5/4 ∧
    (place_first_two_areas "A" "B" (9/10) (4/5) 1).angle = 18 ∧
    (place_first_two_areas "A" "B" (9/10) (4/5) 1).pointsPolar =
      [("A", 5/8, -9), ("B", 5/8, 9)] ∧
    clusterPoints (place_first_two_areas "A" "B" (9/10) (4/5) 1) =
      [("A", pol2cart (5/8) (-9)), ("B", pol2cart (5/8) 9)] := by
  refine ⟨by decide, by decide, by decide, by decide, by decide, ?_⟩
  have hpp : (place_first_two_areas "A" "B" (9/10) (4/5) 1).pointsPolar =
      [("A", 5/8, -9), ("B", 5/8, 9)] := by decide
  rw [clusterPoints, hpp]
  norm_num

/-! ## C1: supporting list lemmas -/

theorem pyDedupAux_eq_self (l : List String) :
    ∀ seen, l.Nodup → (∀ a ∈ l, a ∉ seen) → pyDedupAux seen l = l := by
  induction l with
  | nil => intro seen _ _; rfl
  | cons x xs ih =>
      intro seen hnd hs
      have hx : x ∉ seen := hs x (List.mem_cons_self _ _)
      rw [pyDedupAux, if_neg hx]
      congr 1
      refine ih (x :: seen) (List.nodup_cons.mp hnd).2 ?_
      intro a ha hc
      rcases List.mem_cons.mp hc with rfl | hc
      · exact (List.nodup_cons.mp hnd).1 ha
      · exact hs a (List.mem_cons_of_mem _ ha) hc

theorem pyDedup_eq_self (l : List String) (h : l.Nodup) : pyDedup l = l :=
  pyDedupAux_eq_self l [] h (by simp)

theorem mem_listPairs {α : Type} (l : List α) (p : α × α) (hp : p ∈ listPairs l) :
    p.1 ∈ l ∧ p.2 ∈ l := by
  induction l with
  | nil => simp [listPairs] at hp
  | cons x xs ih =>
      rw [listPairs, List.mem_append] at hp
      rcases hp with hp | hp
      · rw [List.mem_map] at hp
        obtain ⟨y, hy, rfl⟩ := hp
        exact ⟨List.mem_cons_self _ _, List.mem_cons_of_mem _ hy⟩
      · obtain ⟨h1, h2⟩ := ih hp
        exact ⟨List.mem_cons_of_mem _ h1, List.mem_cons_of_mem _ h2⟩

theorem listPairs_ne {α : Type} (l : List α) (hnd : l.Nodup) (p : α × α)
    (hp : p ∈ listPairs l) : p.1 ≠ p.2 := by
  induction l with
  | nil => simp [listPairs] at hp
  | cons x xs ih =>
      rw [listPairs, List.mem_append] at hp
      rcases hp with hp | hp
      · rw [List.mem_map] at hp
        obtain ⟨y, hy, rfl⟩ := hp
        intro hc
        simp only at hc
        rw [← hc] at hy
        exact (List.nodup_cons.mp hnd).1 hy
      · exact ih (List.nodup_cons.mp hnd).2 hp

theorem structLeaves_ne_nil (s : Structure) : structLeaves s ≠ [] := by
  induction s with
  | leaf n => simp [structLeaves]
  | node l r a rad ihl ihr =>
      rw [structLeaves]
      intro hc
      rcases List.append_eq_nil.mp hc with ⟨h1, _⟩
      exact ihl h1

theorem pairs_name_unique (l : List (String × ℚ)) (hnd : (l.map Prod.fst).Nodup)
    (m : String) (r r' : ℚ) (h1 : (m, r) ∈ l) (h2 : (m, r') ∈ l) : r = r' := by
  induction l with
  | nil => simp at h1
  | cons hd tl ih =>
      rw [List.map_cons, List.nodup_cons] at hnd
      rcases List.mem_cons.mp h1 with e1 | h1' <;>
        rcases List.mem_cons.mp h2 with e2 | h2'
      · rw [← e1] at e2
        exact (Prod.mk.injEq _ _ _ _ ▸ e2).2.symm ▸ rfl
      · exfalso
        apply hnd.1
        rw [← e1]
        exact List.mem_map.mpr ⟨(m, r'), h2', rfl⟩
      · exfalso
        apply hnd.1
        rw [← e2]
        exact List.mem_map.mpr ⟨(m, r), h1', rfl⟩
      · exact ih hnd.2 h1' h2'

theorem flatMap_nodup_disjoint_aux {α : Type} (f : α → List String) (l : List α)
    (i j : ℕ) (hij : i < j) (hj : j < l.length)
    (h : (l.flatMap f).Nodup) (m : String)
    (h1 : m ∈ f (l.get ⟨i, by omega⟩)) (h2 : m ∈ f (l.get ⟨j, hj⟩)) : False := by
  have hi : i < l.length := by omega
  have hsplit : l = l.take (i + 1) ++ l.drop (i + 1) := (List.take_append_drop _ _).symm
  have hcount : (l.flatMap f).count m =
      ((l.take (i + 1)).flatMap f).count m + ((l.drop (i + 1)).flatMap f).count m := by
    conv_lhs => rw [hsplit]
    rw [List.flatMap_append, List.count_append]
  have hmem1 : m ∈ (l.take (i + 1)).flatMap f := by
    rw [List.mem_flatMap]
    refine ⟨l.get ⟨i, hi⟩, ?_, h1⟩
    have : i < (l.take (i + 1)).length := by
      rw [List.length_take]
      omega
    have hget : (l.take (i + 1)).get ⟨i, this⟩ = l.get ⟨i, hi⟩ := by
      simp [List.getElem_take]
    rw [← hget]
    exact List.get_mem _ _ _
  have hmem2 : m ∈ (l.drop (i + 1)).flatMap f := by
    rw [List.mem_flatMap]
    have hlen : j - i - 1 < (l.drop (i + 1)).length := by
      rw [List.length_drop]
      omega
    refine ⟨(l.drop (i + 1)).get ⟨j - i - 1, hlen⟩, List.get_mem _ _ _, ?_⟩
    have hget : (l.drop (i + 1)).get ⟨j - i - 1, hlen⟩ = l.get ⟨j, hj⟩ := by
      simp only [List.get_eq_getElem, List.getElem_drop]
      congr 1
      omega
    rw [hget]
    exact h2
  have hc1 : 0 < ((l.take (i + 1)).flatMap f).count m := List.count_pos_iff.mpr hmem1
  have hc2 : 0 < ((l.drop (i + 1)).flatMap f).count m := List.count_pos_iff.mpr hmem2
  have hle := List.nodup_iff_count_le_one.mp h m
  omega

theorem flatMap_nodup_disjoint {α : Type} (f : α → List String) (l : List α)
    (h : (l.flatMap f).Nodup) (i j : ℕ) (hi : i < l.length) (hj : j < l.length)
    (hij : i ≠ j) (m : String) (h1 : m ∈ f (l.get ⟨i, hi⟩))
    (h2 : m ∈ f (l.get ⟨j, hj⟩)) : False := by
  rcases Nat.lt_or_ge i j with hlt | hge
  · exact flatMap_nodup_disjoint_aux f l i j hlt hj h m h1 h2
  · have hlt : j < i := by omega
    exact flatMap_nodup_disjoint_aux f l j i hlt hi h m h2 h1

theorem RadiusChain_append (steps : List Step) (s' : Step) (h : RadiusChain steps)
    (hlast : ∀ slast, steps.getLast? = some slast →
      ∀ p ∈ stepRadiusPairs slast, p ∈ stepRadiusPairs s') :
    RadiusChain (steps ++ [s']) := by
  induction steps with
  | nil => simp [RadiusChain]
  | cons s1 tail ih =>
      cases tail with
      | nil =>
          refine ⟨hlast s1 rfl, trivial⟩
      | cons s2 rest =>
          obtain ⟨h1, h2⟩ := h
          refine ⟨h1, ih h2 ?_⟩
          intro slast hsl
          exact hlast slast (by rw [← hsl, List.getLast?_cons_cons])

theorem RadiusChain_get (steps : List Step) (h : RadiusChain steps) :
    ∀ (i : ℕ) (hi : i + 1 < steps.length),
      ∀ p ∈ stepRadiusPairs (steps.get ⟨i, by omega⟩),
        p ∈ stepRadiusPairs (steps.get ⟨i + 1, hi⟩) := by
  induction steps with
  | nil => intro i hi; simp at hi
  | cons s1 tail ih =>
      cases tail with
      | nil => intro i hi; simp at hi
      | cons s2 rest =>
          intro i hi
          obtain ⟨h1, h2⟩ := h
          cases i with
          | zero => exact h1
          | succ i' =>
              intro p hp
              have hi' : i' + 1 < (s2 :: rest).length := by
                simp at hi ⊢
                omega
              exact ih h2 i' hi' p hp

/-! ## C1: what the pair finders can select -/

theorem unplacedAreas_nodup (lm : Matrix) (placed : List String) :
    (unplacedAreas lm placed).Nodup :=
  (pyDedup_nodup _).filter _

theorem mem_unplacedAreas (lm : Matrix) (placed : List String) (a : String)
    (h : a ∈ unplacedAreas lm placed) : a ∉ placed := by
  rw [unplacedAreas, List.mem_filter] at h
  simpa using h.2

theorem find_pair_spec (matrix : Matrix) (a1 a2 : String) (ls : ℚ)
    (h : find_highest_similarity_pair matrix = some (a1, a2, ls)) :
    (a1, a2) ∈ listPairs (matrix.map Prod.fst) := by
  rw [find_highest_similarity_pair] at h
  have key : ∀ q, ((listPairs (matrix.map Prod.fst)).foldl (bestPairStep matrix)
      (-1, none)).2 = some q → q ∈ listPairs (matrix.map Prod.fst) := by
    refine List.foldlRecOn (motive := fun (acc : ℚ × Option (String × String)) => ∀ q, acc.2 = some q →
      q ∈ listPairs (matrix.map Prod.fst)) _ _ _ ?_ ?_
    · intro q hq
      simp at hq
    · intro acc hC p hp
      intro q hq
      rw [bestPairStep] at hq
      rcases hget : get_similarity matrix p.1 p.2 with _ | sim
      · simp only [hget] at hq
        exact hC q hq
      · simp only [hget] at hq
        by_cases hcond : sim > acc.1
        · rw [if_pos hcond] at hq
          simp only [Option.some.injEq] at hq
          rw [← hq]
          exact hp
        · rw [if_neg hcond] at hq
          exact hC q hq
  rcases hres : ((listPairs (matrix.map Prod.fst)).foldl (bestPairStep matrix)
      (-1, none)).2 with _ | q
  · rw [hres] at h
    simp at h
  · rw [hres] at h
    obtain ⟨x, y⟩ := q
    simp only [Option.some.injEq, Prod.mk.injEq] at h
    obtain ⟨hx, hy, _⟩ := h
    have := key (x, y) hres
    rw [hx, hy] at this
    exact this

theorem find_clusters_spec (lm gm : Matrix) (placed : List String)
    (clusters : List Cluster) (cand : Candidate)
    (h : find_highest_similarity_with_clusters lm gm placed clusters = some cand) :
    (∀ a1 a2 ls gs, cand = .new_pair a1 a2 ls gs →
      a1 ∈ unplacedAreas lm placed ∧ a2 ∈ unplacedAreas lm placed ∧ a1 ≠ a2) ∧
    (∀ c a ls gs, cand = .add_to_cluster c a ls gs →
      c ∈ clusters ∧ a ∈ unplacedAreas lm placed) ∧
    (∀ c1 c2 ls gs, cand = .merge_clusters c1 c2 ls gs →
      c1 ∈ clusters ∧ c2 ∈ clusters) := by
  rw [find_highest_similarity_with_clusters] at h
  set Good : Candidate → Prop := fun cd =>
    (∀ a1 a2 ls gs, cd = .new_pair a1 a2 ls gs →
      a1 ∈ unplacedAreas lm placed ∧ a2 ∈ unplacedAreas lm placed ∧ a1 ≠ a2) ∧
    (∀ c a ls gs, cd = .add_to_cluster c a ls gs →
      c ∈ clusters ∧ a ∈ unplacedAreas lm placed) ∧
    (∀ c1 c2 ls gs, cd = .merge_clusters c1 c2 ls gs →
      c1 ∈ clusters ∧ c2 ∈ clusters) with hGood
  show Good cand
  have h1 : ∀ cd, ((listPairs (unplacedAreas lm placed)).foldl (candPairStep lm gm)
      (-1, none)).2 = some cd → Good cd := by
    refine List.foldlRecOn (motive := fun (acc : ℚ × Option Candidate) => ∀ cd, acc.2 = some cd → Good cd) _ _ _ ?_ ?_
    · intro cd hcd
      simp at hcd
    · intro acc hC p hp cd hcd
      rw [candPairStep] at hcd
      rcases hget : get_similarity lm p.1 p.2 with _ | ls'
      · simp only [hget] at hcd
        exact hC cd hcd
      · simp only [hget] at hcd
        by_cases hcond : ls' ≠ 0 ∧ ls' > acc.1
        · rw [if_pos hcond] at hcd
          simp only [Option.some.injEq] at hcd
          subst hcd
          rw [hGood]
          refine ⟨?_, ?_, ?_⟩
          · intro a1 a2 ls gs he
            injection he with e1 e2 _ _
            subst e1; subst e2
            obtain ⟨hm1, hm2⟩ := mem_listPairs _ p hp
            exact ⟨hm1, hm2, listPairs_ne _ (unplacedAreas_nodup lm placed) p hp⟩
          · intro c a ls gs he
            exact absurd he (by simp)
          · intro c1 c2 ls gs he
            exact absurd he (by simp)
        · rw [if_neg hcond] at hcd
          exact hC cd hcd
  have h2 : ∀ cd, ((clusters.flatMap (fun c => (unplacedAreas lm placed).map
      (fun a => (c, a)))).foldl (candAddStep lm gm)
      ((listPairs (unplacedAreas lm placed)).foldl (candPairStep lm gm)
        (-1, none))).2 = some cd → Good cd := by
    refine List.foldlRecOn (motive := fun (acc : ℚ × Option Candidate) => ∀ cd, acc.2 = some cd → Good cd) _ _ _ h1 ?_
    · intro acc hC ca hca cd hcd
      rw [candAddStep] at hcd
      by_cases hcond : maxMemberSim lm ca.1.members ca.2 > acc.1
      · rw [if_pos hcond] at hcd
        simp only [Option.some.injEq] at hcd
        subst hcd
        rw [List.mem_flatMap] at hca
        obtain ⟨c, hc, hca2⟩ := hca
        rw [List.mem_map] at hca2
        obtain ⟨a, ha, rfl⟩ := hca2
        rw [hGood]
        refine ⟨?_, ?_, ?_⟩
        · intro a1 a2 ls gs he
          exact absurd he (by simp)
        · intro c' a' ls gs he
          injection he with e1 e2 _ _
          subst e1; subst e2
          exact ⟨hc, ha⟩
        · intro c1 c2 ls gs he
          exact absurd he (by simp)
      · rw [if_neg hcond] at hcd
        exact hC cd hcd
  have h3 : ∀ cd, ((listPairs clusters).foldl (candMergeStep lm gm)
      ((clusters.flatMap (fun c => (unplacedAreas lm placed).map
        (fun a => (c, a)))).foldl (candAddStep lm gm)
        ((listPairs (unplacedAreas lm placed)).foldl (candPairStep lm gm)
          (-1, none)))).2 = some cd → Good cd := by
    refine List.foldlRecOn (motive := fun (acc : ℚ × Option Candidate) => ∀ cd, acc.2 = some cd → Good cd) _ _ _ h2 ?_
    · intro acc hC cc hcc cd hcd
      rw [candMergeStep] at hcd
      by_cases hcond : maxCrossSim lm cc.1.members cc.2.members > acc.1
      · rw [if_pos hcond] at hcd
        simp only [Option.some.injEq] at hcd
        subst hcd
        obtain ⟨hm1, hm2⟩ := mem_listPairs _ cc hcc
        rw [hGood]
        refine ⟨?_, ?_, ?_⟩
        · intro a1 a2 ls gs he
          exact absurd he (by simp)
        · intro c a ls gs he
          exact absurd he (by simp)
        · intro c1 c2 ls gs he
          injection he with e1 e2 _ _
          subst e1; subst e2
          exact ⟨hm1, hm2⟩
      · rw [if_neg hcond] at hcd
        exact hC cd hcd
  exact h3 cand h

/-! ## C1: coherence of the three cluster constructors -/

theorem pairsOf_append (l1 l2 : List Cluster) :
    pairsOf (l1 ++ l2) = pairsOf l1 ++ pairsOf l2 := by
  simp [pairsOf]

theorem pairsOf_cons (c : Cluster) (l : List Cluster) :
    pairsOf (c :: l) = c.pointsPolar.map (fun x => (x.1, x.2.1)) ++ pairsOf l := by
  simp [pairsOf]

theorem pairsOf_names (active : List Cluster) (h : ∀ c ∈ active, ClusterInv c) :
    (pairsOf active).map Prod.fst =
      active.flatMap (fun c => structLeaves c.struct) := by
  induction active with
  | nil => rfl
  | cons c rest ih =>
      rw [pairsOf_cons, List.map_append, List.flatMap_cons]
      congr 1
      · rw [(h c (List.mem_cons_self _ _)).1, radiiList_map_fst]
      · exact ih (fun c' hc' => h c' (List.mem_cons_of_mem _ hc'))

theorem ClusterInv_place_first (a1 a2 : String) (ls gs unit : ℚ) (h12 : a1 ≠ a2) :
    ClusterInv (place_first_two_areas a1 a2 ls gs unit) ∧
    structLeaves (place_first_two_areas a1 a2 ls gs unit).struct = [a1, a2] := by
  refine ⟨⟨?_, ?_, ?_⟩, ?_⟩
  · simp [place_first_two_areas, radiiList, childRadius]
  · simp only [place_first_two_areas, structLeaves]
    rw [mkMemberSet, pyDedup_eq_self _ (by simp [h12])]
    exact List.Perm.refl _
  · exact ⟨_, _, _, _, rfl⟩
  · simp [place_first_two_areas, structLeaves]

theorem ClusterInv_add_area (c : Cluster) (a : String) (lm gm : Matrix) (unit : ℚ)
    (hinv : ClusterInv c) (hmem_nodup : c.members.Nodup) (ha : a ∉ c.members) :
    ClusterInv (add_area_to_cluster c a lm gm unit) ∧
    (add_area_to_cluster c a lm gm unit).pointsPolar.map (fun x => (x.1, x.2.1)) =
      c.pointsPolar.map (fun x => (x.1, x.2.1)) ++
        [(a, (add_area_to_cluster c a lm gm unit).radius)] ∧
    structLeaves (add_area_to_cluster c a lm gm unit).struct =
      structLeaves c.struct ++ [a] := by
  obtain ⟨hpts, hperm, l0, r0, a0, rad0, hnode⟩ := hinv
  have hstruct : (add_area_to_cluster c a lm gm unit).struct =
      Structure.node c.struct (.leaf a) (add_area_to_cluster c a lm gm unit).angle
        (add_area_to_cluster c a lm gm unit).radius := by
    simp [add_area_to_cluster]
  have hpp : (add_area_to_cluster c a lm gm unit).pointsPolar =
      positionPolar ((add_area_to_cluster c a lm gm unit).struct) 0
        ((add_area_to_cluster c a lm gm unit).radius) := by
    rw [hstruct]
    simp [add_area_to_cluster]
  have hmap : (add_area_to_cluster c a lm gm unit).pointsPolar.map
      (fun x => (x.1, x.2.1)) =
      radiiList c.struct c.radius ++ [(a, (add_area_to_cluster c a lm gm unit).radius)] := by
    rw [hpp, positionPolar_radii, hstruct, hnode]
    rfl
  have hleaves : structLeaves (add_area_to_cluster c a lm gm unit).struct =
      structLeaves c.struct ++ [a] := by
    rw [hstruct]
    rfl
  have hmembers : (add_area_to_cluster c a lm gm unit).members =
      c.members ++ [a] := by
    show mkMemberSet (c.members ++ [a]) = _
    rw [mkMemberSet, pyDedup_eq_self]
    rw [List.nodup_append]
    exact ⟨hmem_nodup, List.nodup_singleton _, by simpa using ha⟩
  refine ⟨⟨?_, ?_, ?_⟩, ?_, hleaves⟩
  · rw [hmap, hstruct, hnode]
    rfl
  · rw [hleaves, hmembers]
    exact hperm.append_right [a]
  · rw [hstruct]
    exact ⟨_, _, _, _, rfl⟩
  · rw [hmap, hpts]

theorem ClusterInv_merge (c1 c2 : Cluster) (lm gm : Matrix) (unit : ℚ)
    (h1 : ClusterInv c1) (h2 : ClusterInv c2)
    (hnd : (c1.members ++ c2.members).Nodup) :
    ClusterInv (merge_two_clusters c1 c2 lm gm unit) ∧
    (merge_two_clusters c1 c2 lm gm unit).pointsPolar.map (fun x => (x.1, x.2.1)) =
      c1.pointsPolar.map (fun x => (x.1, x.2.1)) ++
        c2.pointsPolar.map (fun x => (x.1, x.2.1)) ∧
    structLeaves (merge_two_clusters c1 c2 lm gm unit).struct =
      structLeaves c1.struct ++ structLeaves c2.struct := by
  obtain ⟨hpts1, hperm1, l1, r1, a1, rad1, hnode1⟩ := h1
  obtain ⟨hpts2, hperm2, l2, r2, a2, rad2, hnode2⟩ := h2
  have hstruct : (merge_two_clusters c1 c2 lm gm unit).struct =
      Structure.node c1.struct c2.struct (merge_two_clusters c1 c2 lm gm unit).angle
        (merge_two_clusters c1 c2 lm gm unit).radius := by
    simp [merge_two_clusters]
  have hpp : (merge_two_clusters c1 c2 lm gm unit).pointsPolar =
      positionPolar ((merge_two_clusters c1 c2 lm gm unit).struct) 0
        ((merge_two_clusters c1 c2 lm gm unit).radius) := by
    rw [hstruct]
    simp [merge_two_clusters]
  have hmap : (merge_two_clusters c1 c2 lm gm unit).pointsPolar.map
      (fun x => (x.1, x.2.1)) =
      radiiList c1.struct c1.radius ++ radiiList c2.struct c2.radius := by
    rw [hpp, positionPolar_radii, hstruct, hnode1, hnode2]
    rfl
  have hleaves : structLeaves (merge_two_clusters c1 c2 lm gm unit).struct =
      structLeaves c1.struct ++ structLeaves c2.struct := by
    rw [hstruct]
    rfl
  have hmembers : (merge_two_clusters c1 c2 lm gm unit).members =
      c1.members ++ c2.members := by
    show mkMemberSet (c1.members ++ c2.members) = _
    rw [mkMemberSet, pyDedup_eq_self _ hnd]
  refine ⟨⟨?_, ?_, ?_⟩, ?_, hleaves⟩
  · rw [hmap, hstruct, hnode1, hnode2]
    rfl
  · rw [hleaves, hmembers]
    exact hperm1.append hperm2
  · rw [hstruct]
    exact ⟨_, _, _, _, rfl⟩
  · rw [hmap, hpts1, hpts2]

/-! ## C1: list decompositions for `set` and double `eraseIdx` -/

theorem take_get_drop {α : Type} (l : List α) (n : ℕ) (h : n < l.length) :
    l = l.take n ++ l.get ⟨n, h⟩ :: l.drop (n + 1) := by
  conv_lhs => rw [← List.take_append_drop n l]
  congr 1
  exact (List.drop_eq_getElem_cons h).symm ▸ rfl

theorem double_eraseIdx_decomp {α : Type} (l : List α) (i j : ℕ) (hij : i < j)
    (hj : j < l.length) :
    (l = l.take i ++ l.get ⟨i, by omega⟩ :: ((l.drop (i + 1)).take (j - i - 1) ++
      l.get ⟨j, hj⟩ :: l.drop (j + 1))) ∧
    (l.eraseIdx j).eraseIdx i =
      l.take i ++ ((l.drop (i + 1)).take (j - i - 1) ++ l.drop (j + 1)) := by
  have hi : i < l.length := by omega
  constructor
  · have e1 := take_get_drop l i hi
    have hlen : j - i - 1 < (l.drop (i + 1)).length := by
      rw [List.length_drop]; omega
    have e2 := take_get_drop (l.drop (i + 1)) (j - i - 1) hlen
    have hget : (l.drop (i + 1)).get ⟨j - i - 1, hlen⟩ = l.get ⟨j, hj⟩ := by
      simp only [List.get_eq_getElem, List.getElem_drop]
      congr 1
      omega
    have hdd : (l.drop (i + 1)).drop (j - i - 1 + 1) = l.drop (j + 1) := by
      rw [List.drop_drop]
      congr 1
      omega
    rw [hget, hdd] at e2
    conv_lhs => rw [e1, e2]
  · rw [List.eraseIdx_eq_take_drop_succ l j, List.eraseIdx_eq_take_drop_succ]
    have h1 : (l.take j ++ l.drop (j + 1)).take i = l.take i := by
      rw [List.take_append_of_le_length (by rw [List.length_take]; omega)]
      rw [List.take_take]
      congr 1
      omega
    have h2 : (l.take j ++ l.drop (j + 1)).drop (i + 1) =
        (l.drop (i + 1)).take (j - i - 1) ++ l.drop (j + 1) := by
      rw [List.drop_append_of_le_length (by rw [List.length_take]; omega)]
      congr 1
      rw [List.drop_take]
      congr 1
    rw [h1, h2]

/-! ## C1: the three loop transitions preserve the invariant -/

theorem ActiveInv_new_pair (active : List Cluster) (placed : List String)
    (a1 a2 : String) (ls gs unit : ℚ)
    (hinv : ActiveInv active placed) (h1 : a1 ∉ placed) (h2 : a2 ∉ placed)
    (h12 : a1 ≠ a2) :
    ActiveInv (active ++ [place_first_two_areas a1 a2 ls gs unit])
      (pyDedup (placed ++ [a1, a2])) ∧
    ∀ p ∈ pairsOf active,
      p ∈ pairsOf (active ++ [place_first_two_areas a1 a2 ls gs unit]) := by
  obtain ⟨hCI, hND, hSub, hPND⟩ := hinv
  obtain ⟨hci, hleaves⟩ := ClusterInv_place_first a1 a2 ls gs unit h12
  refine ⟨⟨?_, ?_, ?_, ?_⟩, ?_⟩
  · intro c hc
    rcases List.mem_append.mp hc with hc | hc
    · exact hCI c hc
    · rw [List.mem_singleton] at hc
      subst hc
      exact hci
  · rw [List.flatMap_append]
    refine List.Nodup.append hND ?_ ?_
    · simp only [List.flatMap_cons, List.flatMap_nil, List.append_nil, hleaves]
      simp [h12]
    · intro m hm hm2
      rw [List.mem_flatMap] at hm
      obtain ⟨c, hc, hmc⟩ := hm
      have hp := hSub c hc m hmc
      simp only [List.flatMap_cons, List.flatMap_nil, List.append_nil, hleaves] at hm2
      rcases List.mem_cons.mp hm2 with rfl | hm2
      · exact h1 hp
      · rw [List.mem_singleton] at hm2
        subst hm2
        exact h2 hp
  · intro c hc m hm
    rw [mem_pyDedup]
    rcases List.mem_append.mp hc with hc | hc
    · exact List.mem_append.mpr (Or.inl (hSub c hc m hm))
    · rw [List.mem_singleton] at hc
      subst hc
      rw [hleaves] at hm
      refine List.mem_append.mpr (Or.inr ?_)
      simpa using hm
  · exact pyDedup_nodup _
  · intro p hp
    rw [pairsOf_append, List.mem_append]
    exact Or.inl hp

theorem ActiveInv_add_area_set (active : List Cluster) (placed : List String)
    (c : Cluster) (a : String) (lm gm : Matrix) (unit : ℚ) (idx : ℕ)
    (hinv : ActiveInv active placed) (hidx : idx < active.length)
    (hgot : active.get ⟨idx, hidx⟩ = c) (ha : a ∉ placed) :
    ActiveInv (active.set idx (add_area_to_cluster c a lm gm unit))
      (pyDedup (placed ++ [a])) ∧
    ∀ p ∈ pairsOf active,
      p ∈ pairsOf (active.set idx (add_area_to_cluster c a lm gm unit)) := by
  obtain ⟨hCI, hND, hSub, hPND⟩ := hinv
  have hact : active = active.take idx ++ c :: active.drop (idx + 1) := by
    conv_lhs => rw [take_get_drop active idx hidx]
    rw [hgot]
  have hset : active.set idx (add_area_to_cluster c a lm gm unit) =
      active.take idx ++ add_area_to_cluster c a lm gm unit :: active.drop (idx + 1) :=
    List.set_eq_take_cons_drop _ hidx
  have hcmem : c ∈ active := by
    rw [hact]
    exact List.mem_append.mpr (Or.inr (List.mem_cons_self _ _))
  have hcinv := hCI c hcmem
  have hflat : active.flatMap (fun x => structLeaves x.struct) =
      (active.take idx).flatMap (fun x => structLeaves x.struct) ++
        (structLeaves c.struct ++
          (active.drop (idx + 1)).flatMap (fun x => structLeaves x.struct)) := by
    conv_lhs => rw [hact]
    rw [List.flatMap_append, List.flatMap_cons]
  have hndc : (structLeaves c.struct).Nodup := by
    rw [hflat] at hND
    exact (hND.of_append_right).of_append_left
  have hmnd : c.members.Nodup := (hcinv.2.1.nodup_iff).mp hndc
  have hmema : a ∉ c.members := by
    intro hc
    exact ha (hSub c hcmem a (hcinv.2.1.mem_iff.mpr hc))
  obtain ⟨huinv, humap, huleaves⟩ := ClusterInv_add_area c a lm gm unit hcinv hmnd hmema
  have hplacedflat : ∀ m, m ∈ active.flatMap (fun x => structLeaves x.struct) →
      m ∈ placed := by
    intro m hm
    rw [List.mem_flatMap] at hm
    obtain ⟨c', hc', hmc'⟩ := hm
    exact hSub c' hc' m hmc'
  refine ⟨⟨?_, ?_, ?_, ?_⟩, ?_⟩
  · intro c' hc'
    rw [hset] at hc'
    rcases List.mem_append.mp hc' with hc' | hc'
    · exact hCI c' (by rw [hact]; exact List.mem_append.mpr (Or.inl hc'))
    · rcases List.mem_cons.mp hc' with rfl | hc'
      · exact huinv
      · refine hCI c' ?_
        rw [hact]
        exact List.mem_append.mpr (Or.inr (List.mem_cons_of_mem _ hc'))
  · rw [hset, List.flatMap_append, List.flatMap_cons, huleaves]
    have heq : (active.take idx).flatMap (fun x => structLeaves x.struct) ++
        ((structLeaves c.struct ++ [a]) ++
          (active.drop (idx + 1)).flatMap (fun x => structLeaves x.struct)) =
        ((active.take idx).flatMap (fun x => structLeaves x.struct) ++
          structLeaves c.struct) ++
          a :: (active.drop (idx + 1)).flatMap (fun x => structLeaves x.struct) := by
      simp [List.append_assoc]
    rw [heq]
    have hperm : List.Perm
        (((active.take idx).flatMap (fun x => structLeaves x.struct) ++
          structLeaves c.struct) ++
          a :: (active.drop (idx + 1)).flatMap (fun x => structLeaves x.struct))
        (a :: (((active.take idx).flatMap (fun x => structLeaves x.struct) ++
          structLeaves c.struct) ++
          (active.drop (idx + 1)).flatMap (fun x => structLeaves x.struct))) :=
      List.perm_middle
    refine hperm.symm.nodup ?_
    rw [List.nodup_cons]
    constructor
    · intro hc
      refine ha (hplacedflat a ?_)
      rw [hflat]
      simp only [List.append_assoc] at hc ⊢
      exact hc
    · rw [hflat] at hND
      simp only [List.append_assoc] at hND ⊢
      exact hND
  · intro c' hc' m hm
    rw [mem_pyDedup]
    rw [hset] at hc'
    rcases List.mem_append.mp hc' with hc' | hc'
    · refine List.mem_append.mpr (Or.inl ?_)
      exact hSub c' (by rw [hact]; exact List.mem_append.mpr (Or.inl hc')) m hm
    · rcases List.mem_cons.mp hc' with rfl | hc'
      · rw [huleaves] at hm
        rcases List.mem_append.mp hm with hm | hm
        · exact List.mem_append.mpr (Or.inl (hSub c hcmem m hm))
        · rw [List.mem_singleton] at hm
          subst hm
          exact List.mem_append.mpr (Or.inr (List.mem_singleton.mpr rfl))
      · refine List.mem_append.mpr (Or.inl ?_)
        refine hSub c' ?_ m hm
        rw [hact]
        exact List.mem_append.mpr (Or.inr (List.mem_cons_of_mem _ hc'))
  · exact pyDedup_nodup _
  · intro p hp
    rw [hset, pairsOf_append, pairsOf_cons]
    conv at hp => rw [hact]
    rw [pairsOf_append, pairsOf_cons] at hp
    rw [humap]
    rcases List.mem_append.mp hp with hp | hp
    · exact List.mem_append.mpr (Or.inl hp)
    · rcases List.mem_append.mp hp with hp | hp
      · refine List.mem_append.mpr (Or.inr ?_)
        exact List.mem_append.mpr (Or.inl (List.mem_append.mpr (Or.inl hp)))
      · refine List.mem_append.mpr (Or.inr ?_)
        exact List.mem_append.mpr (Or.inr hp)

theorem findIdx_get_eq (active : List Cluster) (placed : List String)
    (hinv : ActiveInv active placed) (c : Cluster) (hc : c ∈ active) (idx : ℕ)
    (hfind : active.findIdx? (fun x => x.members = c.members) = some idx) :
    ∃ hlt : idx < active.length, active.get ⟨idx, hlt⟩ = c := by
  obtain ⟨hCI, hND, _, _⟩ := hinv
  have h1 := List.findIdx?_eq_some_iff_findIdx_eq.mp hfind
  have hw : active.findIdx (fun x => x.members = c.members) < active.length :=
    h1.2 ▸ h1.1
  have h2 := @List.findIdx_getElem _ (fun x => x.members = c.members) active hw
  have hmem_eq : (active.get ⟨idx, h1.1⟩).members = c.members := by
    have hfin : (⟨idx, h1.1⟩ : Fin active.length) =
        ⟨active.findIdx (fun x => x.members = c.members), hw⟩ := Fin.ext h1.2.symm
    rw [hfin]
    simpa [List.get_eq_getElem] using h2
  obtain ⟨k, hck⟩ := List.mem_iff_get.mp hc
  refine ⟨h1.1, ?_⟩
  by_cases hik : idx = k.1
  · rw [show (⟨idx, h1.1⟩ : Fin active.length) = k from Fin.ext hik]
    exact hck
  · exfalso
    have hgimem : active.get ⟨idx, h1.1⟩ ∈ active := List.get_mem _ _ _
    have hpi := (hCI _ hgimem).2.1
    have hpk := (hCI _ (List.get_mem active k.1 k.2)).2.1
    obtain ⟨m, hm⟩ := List.exists_mem_of_ne_nil _
      (structLeaves_ne_nil (active.get ⟨idx, h1.1⟩).struct)
    have hm2 : m ∈ structLeaves (active.get ⟨k.1, k.2⟩).struct := by
      refine hpk.mem_iff.mpr ?_
      have hgk : active.get ⟨k.1, k.2⟩ = c := by
        rw [show (⟨k.1, k.2⟩ : Fin active.length) = k from Fin.ext rfl]
        exact hck
      rw [hgk, ← hmem_eq]
      exact hpi.mem_iff.mp hm
    exact flatMap_nodup_disjoint (fun x => structLeaves x.struct) active hND
      idx k.1 h1.1 k.2 hik m hm hm2

theorem ActiveInv_merge_aux (active : List Cluster) (placed : List String)
    (ca cb : Cluster) (lm gm : Matrix) (unit : ℚ) (i j : ℕ)
    (hinv : ActiveInv active placed) (hij : i < j) (hj : j < active.length)
    (hset : (ca = active.get ⟨i, by omega⟩ ∧ cb = active.get ⟨j, hj⟩) ∨
      (ca = active.get ⟨j, hj⟩ ∧ cb = active.get ⟨i, by omega⟩)) :
    ActiveInv ((active.eraseIdx j).eraseIdx i ++
      [merge_two_clusters ca cb lm gm unit]) placed ∧
    ∀ p ∈ pairsOf active,
      p ∈ pairsOf ((active.eraseIdx j).eraseIdx i ++
        [merge_two_clusters ca cb lm gm unit]) := by
  obtain ⟨hCI, hND, hSub, hPND⟩ := hinv
  have hi : i < active.length := by omega
  obtain ⟨hdec1, hdec2⟩ := double_eraseIdx_decomp active i j hij hj
  have hgimem : active.get ⟨i, hi⟩ ∈ active := List.get_mem _ _ _
  have hgjmem : active.get ⟨j, hj⟩ ∈ active := List.get_mem _ _ _
  have hcamem : ca ∈ active := by
    rcases hset with ⟨e, _⟩ | ⟨e, _⟩ <;> rw [e] <;> exact List.get_mem _ _ _
  have hcbmem : cb ∈ active := by
    rcases hset with ⟨_, e⟩ | ⟨_, e⟩ <;> rw [e] <;> exact List.get_mem _ _ _
  have hcia : ClusterInv ca := hCI ca hcamem
  have hcib : ClusterInv cb := hCI cb hcbmem
  have hsegs : ((active.take i).flatMap (fun x => structLeaves x.struct) ++
      (structLeaves (active.get ⟨i, hi⟩).struct ++
        (((active.drop (i + 1)).take (j - i - 1)).flatMap
          (fun x => structLeaves x.struct) ++
          (structLeaves (active.get ⟨j, hj⟩).struct ++
            (active.drop (j + 1)).flatMap (fun x => structLeaves x.struct))))).Nodup := by
    have h := hND
    rw [hdec1] at h
    simpa only [List.flatMap_append, List.flatMap_cons, List.append_assoc] using h
  have hfgi : (structLeaves (active.get ⟨i, hi⟩).struct).Nodup :=
    hsegs.of_append_right.of_append_left
  have hfgj : (structLeaves (active.get ⟨j, hj⟩).struct).Nodup :=
    hsegs.of_append_right.of_append_right.of_append_right.of_append_left
  have hndma : ca.members.Nodup := by
    rcases hset with ⟨e, _⟩ | ⟨e, _⟩
    · rw [e]
      exact ((hCI _ hgimem).2.1.nodup_iff).mp hfgi
    · rw [e]
      exact ((hCI _ hgjmem).2.1.nodup_iff).mp hfgj
  have hndmb : cb.members.Nodup := by
    rcases hset with ⟨_, e⟩ | ⟨_, e⟩
    · rw [e]
      exact ((hCI _ hgjmem).2.1.nodup_iff).mp hfgj
    · rw [e]
      exact ((hCI _ hgimem).2.1.nodup_iff).mp hfgi
  have hdisj : ∀ m, m ∈ ca.members → m ∈ cb.members → False := by
    intro m hma hmb
    rcases hset with ⟨ea, eb⟩ | ⟨ea, eb⟩
    · refine flatMap_nodup_disjoint (fun x => structLeaves x.struct) active hND
        i j hi hj (by omega) m ?_ ?_
      · exact ((hCI _ hgimem).2.1).mem_iff.mpr (by rw [← ea]; exact hma)
      · exact ((hCI _ hgjmem).2.1).mem_iff.mpr (by rw [← eb]; exact hmb)
    · refine flatMap_nodup_disjoint (fun x => structLeaves x.struct) active hND
        j i hj hi (by omega) m ?_ ?_
      · exact ((hCI _ hgjmem).2.1).mem_iff.mpr (by rw [← ea]; exact hma)
      · exact ((hCI _ hgimem).2.1).mem_iff.mpr (by rw [← eb]; exact hmb)
  have hndab : (ca.members ++ cb.members).Nodup := by
    rw [List.nodup_append]
    exact ⟨hndma, hndmb, fun m hma hmb => hdisj m hma hmb⟩
  obtain ⟨hminv, hmpairs, hmleaves⟩ := ClusterInv_merge ca cb lm gm unit hcia hcib hndab
  have hmcount : ∀ m : String,
      (structLeaves (merge_two_clusters ca cb lm gm unit).struct).count m =
        (structLeaves (active.get ⟨i, hi⟩).struct).count m +
          (structLeaves (active.get ⟨j, hj⟩).struct).count m := by
    intro m
    rw [hmleaves]
    rcases hset with ⟨ea, eb⟩ | ⟨ea, eb⟩
    · rw [ea, eb, List.count_append]
    · rw [ea, eb, List.count_append, Nat.add_comm]
  have hEsub : ∀ c ∈ (active.eraseIdx j).eraseIdx i, c ∈ active := by
    intro c hc
    exact List.eraseIdx_subset active j (List.eraseIdx_subset (active.eraseIdx j) i hc)
  refine ⟨⟨?_, ?_, ?_, hPND⟩, ?_⟩
  · intro c hc
    rcases List.mem_append.mp hc with hc | hc
    · exact hCI c (hEsub c hc)
    · rw [List.mem_singleton] at hc
      subst hc
      exact hminv
  · have hcnt : ∀ m : String,
        ((((active.eraseIdx j).eraseIdx i ++
          [merge_two_clusters ca cb lm gm unit]).flatMap
            (fun x => structLeaves x.struct)).count m) =
          ((active.flatMap (fun x => structLeaves x.struct)).count m) := by
      intro m
      conv_rhs => rw [hdec1]
      rw [List.flatMap_append, List.count_append, hdec2]
      simp only [List.flatMap_append, List.flatMap_cons, List.flatMap_nil,
        List.append_nil, List.count_append]
      rw [hmcount]
      omega
    exact ((List.perm_iff_count.mpr hcnt).nodup_iff).mpr hND
  · intro c hc m hm
    rcases List.mem_append.mp hc with hc | hc
    · exact hSub c (hEsub c hc) m hm
    · rw [List.mem_singleton] at hc
      subst hc
      rw [hmleaves] at hm
      rcases List.mem_append.mp hm with hm | hm
      · exact hSub ca hcamem m hm
      · exact hSub cb hcbmem m hm
  · intro p hp
    have hmp : pairsOf [merge_two_clusters ca cb lm gm unit] =
        ca.pointsPolar.map (fun x => (x.1, x.2.1)) ++
          cb.pointsPolar.map (fun x => (x.1, x.2.1)) := by
      rw [pairsOf]
      simp only [List.flatMap_cons, List.flatMap_nil, List.append_nil]
      exact hmpairs
    rw [pairsOf_append, hmp, hdec2, pairsOf_append, pairsOf_append]
    conv at hp => rw [hdec1]
    rw [pairsOf_append, pairsOf_cons, pairsOf_append, pairsOf_cons] at hp
    have hPgi : ∀ q ∈ (active.get ⟨i, hi⟩).pointsPolar.map (fun x => (x.1, x.2.1)),
        q ∈ ca.pointsPolar.map (fun x => (x.1, x.2.1)) ++
          cb.pointsPolar.map (fun x => (x.1, x.2.1)) := by
      intro q hq
      rcases hset with ⟨ea, _⟩ | ⟨_, eb⟩
      · exact List.mem_append.mpr (Or.inl (by rw [ea]; exact hq))
      · exact List.mem_append.mpr (Or.inr (by rw [eb]; exact hq))
    have hPgj : ∀ q ∈ (active.get ⟨j, hj⟩).pointsPolar.map (fun x => (x.1, x.2.1)),
        q ∈ ca.pointsPolar.map (fun x => (x.1, x.2.1)) ++
          cb.pointsPolar.map (fun x => (x.1, x.2.1)) := by
      intro q hq
      rcases hset with ⟨_, eb⟩ | ⟨ea, _⟩
      · exact List.mem_append.mpr (Or.inr (by rw [eb]; exact hq))
      · exact List.mem_append.mpr (Or.inl (by rw [ea]; exact hq))
    rcases List.mem_append.mp hp with hp | hp
    · exact List.mem_append.mpr (Or.inl (List.mem_append.mpr (Or.inl hp)))
    · rcases List.mem_append.mp hp with hp | hp
      · exact List.mem_append.mpr (Or.inr (hPgi p hp))
      · rcases List.mem_append.mp hp with hp | hp
        · exact List.mem_append.mpr
            (Or.inl (List.mem_append.mpr (Or.inr (List.mem_append.mpr (Or.inl hp)))))
        · rcases List.mem_append.mp hp with hp | hp
          · exact List.mem_append.mpr (Or.inr (hPgj p hp))
          · exact List.mem_append.mpr
              (Or.inl (List.mem_append.mpr (Or.inr (List.mem_append.mpr (Or.inr hp)))))

theorem ActiveInv_merge_branch (active : List Cluster) (placed : List String)
    (c1 c2 : Cluster) (lm gm : Matrix) (unit : ℚ) (idx1 idx2 : ℕ)
    (hinv : ActiveInv active placed)
    (h1 : idx1 < active.length) (h2 : idx2 < active.length) (hne : idx1 ≠ idx2)
    (hg1 : active.get ⟨idx1, h1⟩ = c1) (hg2 : active.get ⟨idx2, h2⟩ = c2) :
    ActiveInv ((if idx2 < idx1 then (active.eraseIdx idx1).eraseIdx idx2
        else (active.eraseIdx idx2).eraseIdx idx1) ++
        [merge_two_clusters c1 c2 lm gm unit]) placed ∧
    ∀ p ∈ pairsOf active,
      p ∈ pairsOf ((if idx2 < idx1 then (active.eraseIdx idx1).eraseIdx idx2
        else (active.eraseIdx idx2).eraseIdx idx1) ++
        [merge_two_clusters c1 c2 lm gm unit]) := by
  rcases Nat.lt_or_ge idx2 idx1 with hlt | hge
  · rw [if_pos hlt]
    exact ActiveInv_merge_aux active placed c1 c2 lm gm unit idx2 idx1 hinv hlt h1
      (Or.inr ⟨hg1.symm, hg2.symm⟩)
  · have hlt : idx1 < idx2 := by omega
    rw [if_neg (by omega)]
    exact ActiveInv_merge_aux active placed c1 c2 lm gm unit idx1 idx2 hinv hlt h2
      (Or.inl ⟨hg1.symm, hg2.symm⟩)

/-! ## C1: the loop invariant propagates down the step log -/

theorem StepNamesNodup_of_inv (active : List Cluster) (placed : List String)
    (hinv : ActiveInv active placed) (s : Step) (hcl : s.clusters = active) :
    StepNamesNodup s := by
  rw [StepNamesNodup]
  have hsp : stepRadiusPairs s = pairsOf s.clusters := rfl
  rw [hsp, hcl, pairsOf_names _ hinv.1]
  exact hinv.2.1

theorem RadiusChain_extend (steps : List Step) (s' : Step)
    (oldActive : List Cluster) (hchain : RadiusChain steps)
    (hlastcl : ∀ slast, steps.getLast? = some slast → slast.clusters = oldActive)
    (hsup : ∀ p ∈ pairsOf oldActive, p ∈ pairsOf s'.clusters) :
    RadiusChain (steps ++ [s']) := by
  refine RadiusChain_append steps s' hchain ?_
  intro slast hsl p hp
  have hsp : stepRadiusPairs slast = pairsOf slast.clusters := rfl
  have hsp' : stepRadiusPairs s' = pairsOf s'.clusters := rfl
  rw [hsp, hlastcl slast hsl] at hp
  rw [hsp']
  exact hsup p hp

theorem names_extend (steps : List Step) (s' : Step)
    (hnames : ∀ s ∈ steps, StepNamesNodup s) (hs' : StepNamesNodup s') :
    ∀ s ∈ steps ++ [s'], StepNamesNodup s := by
  intro s hs
  rcases List.mem_append.mp hs with h | h
  · exact hnames s h
  · rw [List.mem_singleton] at h
    subst h
    exact hs'

theorem getLast_concat_clusters (steps : List Step) (s' : Step) :
    ∀ slast, (steps ++ [s']).getLast? = some slast → slast.clusters = s'.clusters := by
  intro slast h
  rw [List.getLast?_concat] at h
  injection h with h
  rw [← h]

theorem buildLoop_succ_none (lm gm : Matrix) (unit : ℚ) (fuel : ℕ)
    (st : BuildState)
    (hwork : st.placed_areas.length < (pyDedup (lm.map Prod.fst)).length ∨
      1 < st.active_clusters.length)
    (hcand : find_highest_similarity_with_clusters lm gm st.placed_areas
      st.active_clusters = none) :
    buildLoop lm gm unit (fuel + 1) st = st.steps := by
  rw [buildLoop, if_pos hwork, hcand]

theorem buildLoop_succ_new_pair (lm gm : Matrix) (unit : ℚ) (fuel : ℕ)
    (st : BuildState) (a1 a2 : String) (ls gs : ℚ)
    (hwork : st.placed_areas.length < (pyDedup (lm.map Prod.fst)).length ∨
      1 < st.active_clusters.length)
    (hcand : find_highest_similarity_with_clusters lm gm st.placed_areas
      st.active_clusters = some (.new_pair a1 a2 ls gs)) :
    buildLoop lm gm unit (fuel + 1) st = buildLoop lm gm unit fuel
      { placed_areas := pyDedup (st.placed_areas ++ [a1, a2])
        active_clusters := st.active_clusters ++
          [place_independent_pair a1 a2 ls gs unit]
        steps := st.steps ++ [⟨st.step_num, "new_pair",
          st.active_clusters ++ [place_independent_pair a1 a2 ls gs unit],
          pyDedup [a1, a2], pyDedup (st.placed_areas ++ [a1, a2])⟩]
        step_num := st.step_num + 1 } := by
  rw [buildLoop, if_pos hwork, hcand]

theorem buildLoop_succ_add_none (lm gm : Matrix) (unit : ℚ) (fuel : ℕ)
    (st : BuildState) (c : Cluster) (a : String) (ls gs : ℚ)
    (hwork : st.placed_areas.length < (pyDedup (lm.map Prod.fst)).length ∨
      1 < st.active_clusters.length)
    (hcand : find_highest_similarity_with_clusters lm gm st.placed_areas
      st.active_clusters = some (.add_to_cluster c a ls gs))
    (hfind : st.active_clusters.findIdx? (fun x => x.members = c.members) = none) :
    buildLoop lm gm unit (fuel + 1) st = st.steps := by
  rw [buildLoop, if_pos hwork, hcand]
  simp only [hfind]

theorem buildLoop_succ_add (lm gm : Matrix) (unit : ℚ) (fuel : ℕ)
    (st : BuildState) (c : Cluster) (a : String) (ls gs : ℚ) (idx : ℕ)
    (hwork : st.placed_areas.length < (pyDedup (lm.map Prod.fst)).length ∨
      1 < st.active_clusters.length)
    (hcand : find_highest_similarity_with_clusters lm gm st.placed_areas
      st.active_clusters = some (.add_to_cluster c a ls gs))
    (hfind : st.active_clusters.findIdx? (fun x => x.members = c.members) =
      some idx) :
    buildLoop lm gm unit (fuel + 1) st = buildLoop lm gm unit fuel
      { placed_areas := pyDedup (st.placed_areas ++ [a])
        active_clusters := st.active_clusters.set idx
          (add_area_to_cluster c a lm gm unit)
        steps := st.steps ++ [⟨st.step_num, "add_area",
          st.active_clusters.set idx (add_area_to_cluster c a lm gm unit),
          [a], pyDedup (st.placed_areas ++ [a])⟩]
        step_num := st.step_num + 1 } := by
  rw [buildLoop, if_pos hwork, hcand]
  simp only [hfind]

theorem buildLoop_succ_merge_none1 (lm gm : Matrix) (unit : ℚ) (fuel : ℕ)
    (st : BuildState) (c1 c2 : Cluster) (ls gs : ℚ)
    (hwork : st.placed_areas.length < (pyDedup (lm.map Prod.fst)).length ∨
      1 < st.active_clusters.length)
    (hcand : find_highest_similarity_with_clusters lm gm st.placed_areas
      st.active_clusters = some (.merge_clusters c1 c2 ls gs))
    (hfind1 : st.active_clusters.findIdx? (fun x => x.members = c1.members) =
      none) :
    buildLoop lm gm unit (fuel + 1) st = st.steps := by
  rw [buildLoop, if_pos hwork, hcand]
  simp only [hfind1]

theorem buildLoop_succ_merge_none2 (lm gm : Matrix) (unit : ℚ) (fuel : ℕ)
    (st : BuildState) (c1 c2 : Cluster) (ls gs : ℚ) (idx1 : ℕ)
    (hwork : st.placed_areas.length < (pyDedup (lm.map Prod.fst)).length ∨
      1 < st.active_clusters.length)
    (hcand : find_highest_similarity_with_clusters lm gm st.placed_areas
      st.active_clusters = some (.merge_clusters c1 c2 ls gs))
    (hfind1 : st.active_clusters.findIdx? (fun x => x.members = c1.members) =
      some idx1)
    (hfind2 : st.active_clusters.findIdx? (fun x => x.members = c2.members) =
      none) :
    buildLoop lm gm unit (fuel + 1) st = st.steps := by
  rw [buildLoop, if_pos hwork, hcand]
  simp only [hfind1, hfind2]

theorem buildLoop_succ_merge_same (lm gm : Matrix) (unit : ℚ) (fuel : ℕ)
    (st : BuildState) (c1 c2 : Cluster) (ls gs : ℚ) (idx1 idx2 : ℕ)
    (hwork : st.placed_areas.length < (pyDedup (lm.map Prod.fst)).length ∨
      1 < st.active_clusters.length)
    (hcand : find_highest_similarity_with_clusters lm gm st.placed_areas
      st.active_clusters = some (.merge_clusters c1 c2 ls gs))
    (hfind1 : st.active_clusters.findIdx? (fun x => x.members = c1.members) =
      some idx1)
    (hfind2 : st.active_clusters.findIdx? (fun x => x.members = c2.members) =
      some idx2)
    (heq : idx1 = idx2) :
    buildLoop lm gm unit (fuel + 1) st = st.steps := by
  rw [buildLoop, if_pos hwork, hcand]
  simp only [hfind1, hfind2]
  rw [if_pos heq]

theorem buildLoop_succ_merge (lm gm : Matrix) (unit : ℚ) (fuel : ℕ)
    (st : BuildState) (c1 c2 : Cluster) (ls gs : ℚ) (idx1 idx2 : ℕ)
    (hwork : st.placed_areas.length < (pyDedup (lm.map Prod.fst)).length ∨
      1 < st.active_clusters.length)
    (hcand : find_highest_similarity_with_clusters lm gm st.placed_areas
      st.active_clusters = some (.merge_clusters c1 c2 ls gs))
    (hfind1 : st.active_clusters.findIdx? (fun x => x.members = c1.members) =
      some idx1)
    (hfind2 : st.active_clusters.findIdx? (fun x => x.members = c2.members) =
      some idx2)
    (hne : idx1 ≠ idx2) :
    buildLoop lm gm unit (fuel + 1) st = buildLoop lm gm unit fuel
      { placed_areas := st.placed_areas
        active_clusters := (if idx2 < idx1 then
            (st.active_clusters.eraseIdx idx1).eraseIdx idx2
          else (st.active_clusters.eraseIdx idx2).eraseIdx idx1) ++
          [merge_two_clusters c1 c2 lm gm unit]
        steps := st.steps ++ [⟨st.step_num, "merge_clusters",
          (if idx2 < idx1 then
              (st.active_clusters.eraseIdx idx1).eraseIdx idx2
            else (st.active_clusters.eraseIdx idx2).eraseIdx idx1) ++
            [merge_two_clusters c1 c2 lm gm unit],
          [], st.placed_areas⟩]
        step_num := st.step_num + 1 } := by
  rw [buildLoop, if_pos hwork, hcand]
  simp only [hfind1, hfind2]
  rw [if_neg hne]

theorem buildLoop_succ_done (lm gm : Matrix) (unit : ℚ) (fuel : ℕ)
    (st : BuildState)
    (hwork : ¬(st.placed_areas.length < (pyDedup (lm.map Prod.fst)).length ∨
      1 < st.active_clusters.length)) :
    buildLoop lm gm unit (fuel + 1) st = st.steps := by
  rw [buildLoop, if_neg hwork]

theorem buildLoop_inv (lm gm : Matrix) (unit : ℚ) (fuel : ℕ) :
    ∀ st : BuildState,
      ActiveInv st.active_clusters st.placed_areas →
      RadiusChain st.steps →
      (∀ s ∈ st.steps, StepNamesNodup s) →
      (∀ slast, st.steps.getLast? = some slast →
        slast.clusters = st.active_clusters) →
      RadiusChain (buildLoop lm gm unit fuel st) ∧
      ∀ s ∈ buildLoop lm gm unit fuel st, StepNamesNodup s := by
  induction fuel with
  | zero =>
      intro st _ hchain hnames _
      exact ⟨hchain, hnames⟩
  | succ fuel ih =>
      intro st hinv hchain hnames hlastcl
      by_cases hwork : st.placed_areas.length < (pyDedup (lm.map Prod.fst)).length ∨
          1 < st.active_clusters.length
      · rcases hcand : find_highest_similarity_with_clusters lm gm st.placed_areas
            st.active_clusters with _ | cand
        · rw [buildLoop_succ_none lm gm unit fuel st hwork hcand]
          exact ⟨hchain, hnames⟩
        · have hspec := find_clusters_spec lm gm st.placed_areas st.active_clusters
            cand hcand
          rcases cand with ⟨a1, a2, ls, gs⟩ | ⟨c, a, ls, gs⟩ | ⟨c1, c2, ls, gs⟩
          · obtain ⟨hu1, hu2, hne⟩ := hspec.1 a1 a2 ls gs rfl
            have ha1 : a1 ∉ st.placed_areas := mem_unplacedAreas _ _ _ hu1
            have ha2 : a2 ∉ st.placed_areas := mem_unplacedAreas _ _ _ hu2
            obtain ⟨hinv', hpairs'⟩ := ActiveInv_new_pair st.active_clusters
              st.placed_areas a1 a2 ls gs unit hinv ha1 ha2 hne
            rw [buildLoop_succ_new_pair lm gm unit fuel st a1 a2 ls gs hwork hcand]
            exact ih _ hinv'
              (RadiusChain_extend st.steps _ st.active_clusters hchain hlastcl
                hpairs')
              (names_extend st.steps _ hnames
                (StepNamesNodup_of_inv _ _ hinv' _ rfl))
              (getLast_concat_clusters st.steps _)
          · obtain ⟨hc, ha⟩ := hspec.2.1 c a ls gs rfl
            rcases hfind : st.active_clusters.findIdx?
                (fun x => x.members = c.members) with _ | idx
            · rw [buildLoop_succ_add_none lm gm unit fuel st c a ls gs hwork hcand
                hfind]
              exact ⟨hchain, hnames⟩
            · obtain ⟨hlt, hgot⟩ := findIdx_get_eq st.active_clusters st.placed_areas
                hinv c hc idx hfind
              obtain ⟨hinv', hpairs'⟩ := ActiveInv_add_area_set st.active_clusters
                st.placed_areas c a lm gm unit idx hinv hlt hgot
                (mem_unplacedAreas _ _ _ ha)
              rw [buildLoop_succ_add lm gm unit fuel st c a ls gs idx hwork hcand
                hfind]
              exact ih _ hinv'
                (RadiusChain_extend st.steps _ st.active_clusters hchain hlastcl
                  hpairs')
                (names_extend st.steps _ hnames
                  (StepNamesNodup_of_inv _ _ hinv' _ rfl))
                (getLast_concat_clusters st.steps _)
          · obtain ⟨hc1, hc2⟩ := hspec.2.2 c1 c2 ls gs rfl
            rcases hfind1 : st.active_clusters.findIdx?
                (fun x => x.members = c1.members) with _ | idx1
            · rw [buildLoop_succ_merge_none1 lm gm unit fuel st c1 c2 ls gs hwork
                hcand hfind1]
              exact ⟨hchain, hnames⟩
            · rcases hfind2 : st.active_clusters.findIdx?
                  (fun x => x.members = c2.members) with _ | idx2
              · rw [buildLoop_succ_merge_none2 lm gm unit fuel st c1 c2 ls gs idx1
                  hwork hcand hfind1 hfind2]
                exact ⟨hchain, hnames⟩
              · by_cases heq : idx1 = idx2
                · rw [buildLoop_succ_merge_same lm gm unit fuel st c1 c2 ls gs idx1
                    idx2 hwork hcand hfind1 hfind2 heq]
                  exact ⟨hchain, hnames⟩
                · obtain ⟨hlt1, hgot1⟩ := findIdx_get_eq st.active_clusters
                    st.placed_areas hinv c1 hc1 idx1 hfind1
                  obtain ⟨hlt2, hgot2⟩ := findIdx_get_eq st.active_clusters
                    st.placed_areas hinv c2 hc2 idx2 hfind2
                  obtain ⟨hinv', hpairs'⟩ := ActiveInv_merge_branch
                    st.active_clusters st.placed_areas c1 c2 lm gm unit idx1 idx2
                    hinv hlt1 hlt2 heq hgot1 hgot2
                  rw [buildLoop_succ_merge lm gm unit fuel st c1 c2 ls gs idx1 idx2
                    hwork hcand hfind1 hfind2 heq]
                  exact ih _ hinv'
                    (RadiusChain_extend st.steps _ st.active_clusters hchain
                      hlastcl hpairs')
                    (names_extend st.steps _ hnames
                      (StepNamesNodup_of_inv _ _ hinv' _ rfl))
                    (getLast_concat_clusters st.steps _)
      · rw [buildLoop_succ_done lm gm unit fuel st hwork]
        exact ⟨hchain, hnames⟩

theorem stepPoints_radius (s : Step) (m : String) (p : ℝ × ℝ)
    (h : (m, p) ∈ stepPoints s) :
    ∃ r θ : ℚ, (m, r) ∈ stepRadiusPairs s ∧ p = pol2cart (r : ℝ) (θ : ℝ) := by
  simp only [stepPoints, clusterPoints, List.mem_flatMap, List.mem_map] at h
  obtain ⟨c, hc, x, hx, hxe⟩ := h
  simp only [Prod.mk.injEq] at hxe
  obtain ⟨h1, h2⟩ := hxe
  refine ⟨x.2.1, x.2.2, ?_, h2.symm⟩
  simp only [stepRadiusPairs, List.mem_flatMap, List.mem_map]
  exact ⟨c, hc, x, hx, by rw [h1]⟩

theorem build_initial_inv (a1 a2 : String) (ls gs unit : ℚ) (h12 : a1 ≠ a2) :
    ActiveInv [place_first_two_areas a1 a2 ls gs unit] (pyDedup [a1, a2]) := by
  obtain ⟨hci, hleaves⟩ := ClusterInv_place_first a1 a2 ls gs unit h12
  refine ⟨?_, ?_, ?_, pyDedup_nodup _⟩
  · intro c hc
    rw [List.mem_singleton] at hc
    subst hc
    exact hci
  · simp only [List.flatMap_cons, List.flatMap_nil, List.append_nil, hleaves]
    simp [h12]
  · intro c hc m hm
    rw [List.mem_singleton] at hc
    subst hc
    rw [hleaves] at hm
    rw [mem_pyDedup]
    exact hm

/-- **C1** (amended): concentric radius stability across the step log of
`build_acc_iterative`.  For any two consecutive recorded steps, a member
present in the earlier step carries exactly the same polar radius in the
later step, so the distance from the origin of every cartesian point
plotted for it is unchanged.  (The claim's further assertion that an
`add_area` step also leaves existing members' *angles* unchanged is false:
`add_area_to_cluster` re-roots the cluster's structure tree and rotates
the existing members by half the new fan angle — see `C1_counterexample`.) -/
theorem C1 (lm gm : Matrix) (unit : ℚ) (hkeys : (lm.map Prod.fst).Nodup)
    (i : ℕ) (hi : i + 1 < (build_acc_iterative lm gm unit).length)
    (m : String) (r r' : ℚ)
    (hp : (m, r) ∈ stepRadiusPairs
      ((build_acc_iterative lm gm unit).get ⟨i, by omega⟩))
    (hq : (m, r') ∈ stepRadiusPairs
      ((build_acc_iterative lm gm unit).get ⟨i + 1, hi⟩)) :
    r' = r ∧
    ∀ p q : ℝ × ℝ,
      (m, p) ∈ stepPoints ((build_acc_iterative lm gm unit).get ⟨i, by omega⟩) →
      (m, q) ∈ stepPoints ((build_acc_iterative lm gm unit).get ⟨i + 1, hi⟩) →
      originDist q = originDist p := by
  have hkey : RadiusChain (build_acc_iterative lm gm unit) ∧
      ∀ s ∈ build_acc_iterative lm gm unit, StepNamesNodup s := by
    rcases hfp : find_highest_similarity_pair lm with _ | t
    · have hnil : build_acc_iterative lm gm unit = [] := by
        rw [build_acc_iterative, hfp]
      rw [hnil]
      refine ⟨trivial, ?_⟩
      intro s hs
      simp at hs
    · obtain ⟨a1, a2, ls⟩ := t
      have h12 : a1 ≠ a2 :=
        listPairs_ne _ hkeys (a1, a2) (find_pair_spec lm a1 a2 ls hfp)
      have hbuild : build_acc_iterative lm gm unit =
          buildLoop lm gm unit
            (buildMeasure lm
              { placed_areas := pyDedup [a1, a2]
                active_clusters := [place_first_two_areas a1 a2 ls
                  ((get_similarity gm a1 a2).getD ls) unit]
                steps := [⟨0, "initial",
                  [place_first_two_areas a1 a2 ls
                    ((get_similarity gm a1 a2).getD ls) unit],
                  pyDedup [a1, a2], pyDedup [a1, a2]⟩]
                step_num := 1 } + 1)
            { placed_areas := pyDedup [a1, a2]
              active_clusters := [place_first_two_areas a1 a2 ls
                ((get_similarity gm a1 a2).getD ls) unit]
              steps := [⟨0, "initial",
                [place_first_two_areas a1 a2 ls
                  ((get_similarity gm a1 a2).getD ls) unit],
                pyDedup [a1, a2], pyDedup [a1, a2]⟩]
              step_num := 1 } := by
        rw [build_acc_iterative, hfp]
      rw [hbuild]
      refine buildLoop_inv lm gm unit _ _
        (build_initial_inv a1 a2 ls ((get_similarity gm a1 a2).getD ls) unit h12)
        trivial ?_ ?_
      · intro s hs
        rw [List.mem_singleton] at hs
        subst hs
        exact StepNamesNodup_of_inv _ _
          (build_initial_inv a1 a2 ls ((get_similarity gm a1 a2).getD ls) unit h12)
          _ rfl
      · intro slast h
        rw [List.getLast?_singleton] at h
        injection h with h
        rw [← h]
  obtain ⟨hchain, hnames⟩ := hkey
  have hstep := RadiusChain_get _ hchain i hi
  have hr1 : (m, r) ∈ stepRadiusPairs
      ((build_acc_iterative lm gm unit).get ⟨i + 1, hi⟩) := hstep (m, r) hp
  have hnn1 : StepNamesNodup ((build_acc_iterative lm gm unit).get ⟨i + 1, hi⟩) :=
    hnames _ (List.get_mem _ _ _)
  have hnn0 : StepNamesNodup
      ((build_acc_iterative lm gm unit).get ⟨i, by omega⟩) :=
    hnames _ (List.get_mem _ _ _)
  have hrr : r = r' := pairs_name_unique _ hnn1 m r r' hr1 hq
  refine ⟨hrr.symm, ?_⟩
  intro p q hpp hqq
  obtain ⟨rp, θp, hrp, hpe⟩ := stepPoints_radius _ m p hpp
  obtain ⟨rq, θq, hrq, hqe⟩ := stepPoints_radius _ m q hqq
  have hrpr : rp = r := pairs_name_unique _ hnn0 m rp r hrp hp
  have hrqr : rq = r' := pairs_name_unique _ hnn1 m rq r' hrq hq
  rw [hpe, hqe, originDist_pol2cart, originDist_pol2cart, hrpr, hrqr, ← hrr]

/-- Witness: on the concrete three-area run, area `A` appears in both the
initial step and the following `add_area` step with the same radius 1, and
every cartesian point plotted for it keeps its distance from the origin. -/
theorem C1_witness :
    (1 : ℚ) = 1 ∧
    ∀ p q : ℝ × ℝ,
      ("A", p) ∈ stepPoints
        ((build_acc_iterative exampleLocalMatrix exampleGlobalMatrix 1).get
          ⟨0, by decide⟩) →
      ("A", q) ∈ stepPoints
        ((build_acc_iterative exampleLocalMatrix exampleGlobalMatrix 1).get
          ⟨1, by decide⟩) →
      originDist q = originDist p :=
  C1 exampleLocalMatrix exampleGlobalMatrix 1 (by decide) 0 (by decide)
    "A" 1 1 (by decide) (by decide)

/-- Counterexample to the angle half of the claim: in the concrete run on
`exampleLocalMatrix`/`exampleGlobalMatrix`, the second step is an
`add_area` step, and already-placed area `A` moves from polar `(1, -18°)`
to polar `(1, 189/2°)` — the radius is kept but the angle (and hence the
plotted cartesian point) changes. -/
theorem C1_counterexample :
    ((build_acc_iterative exampleLocalMatrix exampleGlobalMatrix 1).map
      (fun s => s.action) = ["initial", "add_area"]) ∧
    ((build_acc_iterative exampleLocalMatrix exampleGlobalMatrix 1).map
      (fun s => s.clusters.flatMap (fun c => c.pointsPolar)) =
      [[("A", 1, -18), ("B", 1, 18)],
       [("A", 1, 189/2), ("B", 1, 117/2), ("C", 10/7, -153/2)]]) ∧
    pol2cart (1 : ℝ) (-18) ≠ pol2cart (1 : ℝ) (189/2) := by
  refine ⟨by decide, by decide, ?_⟩
  intro hcontra
  rw [pol2cart_eq_neg_sin_cos, pol2cart_eq_neg_sin_cos, Prod.mk.injEq] at hcontra
  obtain ⟨hx, _⟩ := hcontra
  simp only [one_mul, neg_inj] at hx
  have hneg : ((-18 : ℝ)) * π / 180 = -((18 : ℝ) * π / 180) := by ring
  rw [hneg, Real.sin_neg] at hx
  have hs1 : 0 < Real.sin ((18 : ℝ) * π / 180) :=
    Real.sin_pos_of_pos_of_lt_pi (by positivity) (by linarith [Real.pi_pos])
  have hs2 : 0 < Real.sin ((189/2 : ℝ) * π / 180) :=
    Real.sin_pos_of_pos_of_lt_pi (by positivity) (by linarith [Real.pi_pos])
  linarith

end ACC
